import Mathlib

/-!
# Verification of the Paleta Color clustering and harmony engine

Shallow embedding of `src/lib/color-algorithms.ts` (color-space conversions,
k-means color extraction, harmony-ring generation) of the `paleta-color`
repository, together with proofs and refutations of the frozen claims about
that code.

Conventions of the embedding:

* JavaScript `number` values are modelled as exact rationals (`ℚ`).  Every
  arithmetic operation performed by the code on the inputs relevant to the
  claims is rational, so the embedding agrees with the IEEE-double execution
  on all concrete inputs referenced below (this was checked by evaluation).
* `Math.round` is `jsRound` (round half toward positive infinity, which is
  the JavaScript semantics), `%` on nonnegative numbers is `jsMod`.
* `Math.sqrt` appears in the source only inside `colorDistance`, whose result
  is used exclusively in order comparisons (`<`, `>`, `Math.min`-style folds)
  against other distances, against `0` and against the constant `60`.  Since
  `Real.sqrt` is strictly monotone on nonnegative arguments, the embedding
  `colorDistanceSq` carries the *squared* Euclidean distance and every
  comparison threshold is squared at its call site (`60` becomes `3600`);
  all comparison outcomes are literally identical to the source's.
* `Math.random()` draws are modelled by an explicit stream `rnd : ℕ → ℕ`
  together with a counter: the source computes
  `Math.floor(Math.random() * pixels.length)`, an arbitrary index below
  `pixels.length`, which the embedding realises as `rnd ctr % pixels.length`.
  All theorems below quantify over every stream, hence over every possible
  sequence of random draws.
-/

/-- JavaScript `Math.round`: round half up (toward `+∞`). -/
def jsRound (x : ℚ) : ℚ := ((⌊x + 1/2⌋ : ℤ) : ℚ)

/-- JavaScript `%` (remainder truncating toward zero). -/
def jsMod (a b : ℚ) : ℚ :=
  a - b * (if a / b < 0 then ((⌈a / b⌉ : ℤ) : ℚ) else ((⌊a / b⌋ : ℤ) : ℚ))

/-- Body of the `hue2rgb` helper of `hslToRgb`, after the two normalisation
conditionals on `t` have been applied. -/
def hue2rgbAux (p q t : ℚ) : ℚ :=
  if t < 1/6 then p + (q - p) * 6 * t
  else if t < 1/2 then q
  else if t < 2/3 then p + (q - p) * (2/3 - t) * 6
  else p

/-- The two sequential normalisation conditionals of `hue2rgb`:
`if (t < 0) t += 1; if (t > 1) t -= 1;`. -/
def normHue (t : ℚ) : ℚ :=
  let t1 := if t < 0 then t + 1 else t
  if t1 > 1 then t1 - 1 else t1

/-- The local `hue2rgb` closure of `hslToRgb`. -/
def hue2rgb (p q t : ℚ) : ℚ := hue2rgbAux p q (normHue t)

/-- `hslToRgb(h, s, l)` from `color-algorithms.ts`: h in degrees [0,360],
s and l in percent; returns rounded channels. -/
def hslToRgb (h s l : ℚ) : ℚ × ℚ × ℚ :=
  let h := h / 360
  let s := s / 100
  let l := l / 100
  if s = 0 then
    let c := jsRound (l * 255)
    (c, c, c)
  else
    let q := if l < 1/2 then l * (1 + s) else l + s - l * s
    let p := 2 * l - q
    (jsRound (hue2rgb p q (h + 1/3) * 255),
     jsRound (hue2rgb p q h * 255),
     jsRound (hue2rgb p q (h - 1/3) * 255))

/-- `rgbToHsl(r, g, b)` from `color-algorithms.ts`: channels in [0,255];
returns rounded (h, s, l) with h in degrees and s, l in percent.  The
`switch (max)` of the source tests `case r` before `case g` before `case b`,
which the nested conditionals reproduce. -/
def rgbToHsl (r g b : ℚ) : ℚ × ℚ × ℚ :=
  let r := r / 255
  let g := g / 255
  let b := b / 255
  let mx := max r (max g b)
  let mn := min r (min g b)
  let l := (mx + mn) / 2
  if mx = mn then
    (0, 0, jsRound (l * 100))
  else
    let d := mx - mn
    let s := if l > 1/2 then d / (2 - mx - mn) else d / (mx + mn)
    let h := if mx = r then ((g - b) / d + if g < b then 6 else 0) / 6
             else if mx = g then ((b - r) / d + 2) / 6
             else ((r - g) / d + 4) / 6
    (jsRound (h * 360), jsRound (s * 100), jsRound (l * 100))

/-- One channel of `rgbToHex`: `x.toString(16).padStart(2, '0')`.  Every call
site passes an integer in [0,255], for which JavaScript produces the two
lowercase hexadecimal digits of the integer. -/
def toHexByte (x : ℚ) : String :=
  let n := (⌊x⌋).toNat
  String.mk [Nat.digitChar (n / 16 % 16), Nat.digitChar (n % 16)]

/-- `rgbToHex(r, g, b)` from `color-algorithms.ts`. -/
def rgbToHex (r g b : ℚ) : String :=
  "#" ++ toHexByte r ++ toHexByte g ++ toHexByte b

/-- The `Color` interface of `types/color.types.ts`. -/
structure Color where
  r : ℚ
  g : ℚ
  b : ℚ
  h : ℚ
  s : ℚ
  l : ℚ
  hex : String
  position : Option (ℚ × ℚ) := none
deriving DecidableEq, Repr

/-- The `HarmonyMode` union type of `types/color.types.ts`. -/
inductive HarmonyMode where
  | complementary
  | analogous
  | triadic
  | tetradic
  | splitComplementary
deriving DecidableEq, Repr

/-- The common tail of every branch of `generateComplementaryColors`:
`colors.push({ ...rgb, ...hsl, hex: rgbToHex(rgb.r, rgb.g, rgb.b) })`, where
`rgb = hslToRgb(newH, s, newL)` and `hsl = rgbToHsl(rgb.r, rgb.g, rgb.b)`.
The pushed object carries no `position` property. -/
def mkHarmonyColor (newH s newL : ℚ) : Color :=
  let rgb := hslToRgb newH s newL
  let hsl := rgbToHsl rgb.1 rgb.2.1 rgb.2.2
  { r := rgb.1, g := rgb.2.1, b := rgb.2.2,
    h := hsl.1, s := hsl.2.1, l := hsl.2.2,
    hex := rgbToHex rgb.1 rgb.2.1 rgb.2.2,
    position := none }

/-- `generateComplementaryColors(baseColor, rings, mode)` from
`color-algorithms.ts`.  Each `for (let i = 0; i < rings; i++)` push-loop is
the map over `List.range rings`; the final `colors.slice(0, rings)` is
`List.take rings`. -/
def generateComplementaryColors (baseColor : Color) (rings : ℕ)
    (mode : HarmonyMode) : List Color :=
  (match mode with
   | HarmonyMode.complementary =>
     (List.range rings).map fun (i : ℕ) =>
       let lightnessVariation := ((i : ℚ) - (rings : ℚ) / 2) * (60 / (rings : ℚ))
       let newL := max 10 (min 90 (baseColor.l + lightnessVariation))
       let newH := jsMod (baseColor.h + 180) 360
       mkHarmonyColor newH baseColor.s newL
   | HarmonyMode.analogous =>
     (List.range rings).map fun (i : ℕ) =>
       let hueOffset := (((i : ℚ) - (rings : ℚ) / 2) * 60) / (rings : ℚ)
       let newH := jsMod (baseColor.h + hueOffset + 360) 360
       let lightnessVariation : ℚ := if i % 2 = 0 then 10 else -10
       let newL := max 10 (min 90 (baseColor.l + lightnessVariation))
       mkHarmonyColor newH baseColor.s newL
   | HarmonyMode.triadic =>
     let triadicHues : List ℚ := [0, 120, 240]
     (List.range rings).map fun (i : ℕ) =>
       let hueIndex := i % 3
       let newH := jsMod (baseColor.h + triadicHues.getD hueIndex 0) 360
       let lightnessVariation := ((i / 3 : ℕ) : ℚ) * (40 / ((⌈(rings : ℚ) / 3⌉ : ℤ) : ℚ))
       let newL := max 10 (min 90 (baseColor.l + lightnessVariation - 20))
       mkHarmonyColor newH baseColor.s newL
   | HarmonyMode.tetradic =>
     let tetradicHues : List ℚ := [0, 90, 180, 270]
     (List.range rings).map fun (i : ℕ) =>
       let hueIndex := i % 4
       let newH := jsMod (baseColor.h + tetradicHues.getD hueIndex 0) 360
       let lightnessVariation := ((i / 4 : ℕ) : ℚ) * (40 / ((⌈(rings : ℚ) / 4⌉ : ℤ) : ℚ))
       let newL := max 10 (min 90 (baseColor.l + lightnessVariation - 20))
       mkHarmonyColor newH baseColor.s newL
   | HarmonyMode.splitComplementary =>
     let splitHues : List ℚ := [0, 150, 210]
     (List.range rings).map fun (i : ℕ) =>
       let hueIndex := i % 3
       let newH := jsMod (baseColor.h + splitHues.getD hueIndex 0) 360
       let lightnessVariation := ((i / 3 : ℕ) : ℚ) * (40 / ((⌈(rings : ℚ) / 3⌉ : ℤ) : ℚ))
       let newL := max 10 (min 90 (baseColor.l + lightnessVariation - 20))
       mkHarmonyColor newH baseColor.s newL).take rings

/-- A base color is valid when its HSL fields are in the documented ranges. -/
def ValidColor (c : Color) : Prop :=
  0 ≤ c.h ∧ c.h ≤ 360 ∧ 0 ≤ c.s ∧ c.s ≤ 100 ∧ 0 ≤ c.l ∧ c.l ≤ 100

instance (c : Color) : Decidable (ValidColor c) := by
  unfold ValidColor; infer_instance

/-! ## Generic access lemmas for the harmony generator -/

/-- Each branch of `generateComplementaryColors` is a map over `List.range`
truncated to its own length; truncation is the identity there. -/
theorem take_map_range {α : Type} (f : ℕ → α) (n : ℕ) :
    (((List.range n).map f).take n) = (List.range n).map f :=
  List.take_of_length_le (by simp)

theorem getD_take_map_range {α : Type} (f : ℕ → α) (n i : ℕ)
    (d : α) (hi : i < n) :
    ((((List.range n).map f).take n)).getD i d = f i := by
  rw [take_map_range, List.getD_eq_getElem?_getD]
  simp [List.getElem?_map, List.getElem?_range, hi]

/-! ## Concrete colors used by counterexamples and witnesses -/

/-- A valid base color: pure red, `h = 0`, `s = 100`, `l = 50`. -/
def baseRed : Color := ⟨255, 0, 0, 0, 100, 50, "#ff0000", none⟩

/-- A valid base color with zero saturation and hue `0`. -/
def baseGray : Color := ⟨0, 0, 0, 0, 0, 50, "#000000", none⟩

/-- A valid base color with zero saturation and hue `100`. -/
def baseGrayHue100 : Color := ⟨0, 0, 0, 100, 0, 50, "#000000", none⟩

/-! ## C2: harmony output cardinality -/

/-- C2: for every base color, every ring count in [3,12] and every harmony
mode, `generateComplementaryColors` returns a list of length exactly
`rings`. -/
theorem generateComplementaryColors_length (base : Color) (rings : ℕ)
    (mode : HarmonyMode) (h3 : 3 ≤ rings) (h12 : rings ≤ 12) :
    (generateComplementaryColors base rings mode).length = rings := by
  cases mode <;>
    simp only [generateComplementaryColors, List.length_take, List.length_map,
      List.length_range, min_self]

/-- Witness for C2 at a concrete input. -/
theorem generateComplementaryColors_length_witness :
    3 ≤ 5 ∧ 5 ≤ 12 ∧
      (generateComplementaryColors baseRed 5 HarmonyMode.analogous).length = 5 :=
  ⟨by norm_num, by norm_num,
    generateComplementaryColors_length baseRed 5 HarmonyMode.analogous
      (by norm_num) (by norm_num)⟩

/-! ## C9: determinism of the harmony generator -/

/-- C9: `generateComplementaryColors` is deterministic and depends only on
the `h`, `s`, `l` fields of the base color: two invocations whose base
colors agree on those fields (with the same ring count and mode) return
identical sequences. -/
theorem generateComplementaryColors_deterministic (b₁ b₂ : Color)
    (rings : ℕ) (mode : HarmonyMode)
    (hh : b₁.h = b₂.h) (hs : b₁.s = b₂.s) (hl : b₁.l = b₂.l) :
    generateComplementaryColors b₁ rings mode =
      generateComplementaryColors b₂ rings mode := by
  cases mode <;> simp only [generateComplementaryColors, hh, hs, hl]

/-- Witness for C9: two base colors that differ in their RGB, hex and
position fields but share HSL produce the same triadic ring. -/
theorem generateComplementaryColors_deterministic_witness :
    generateComplementaryColors ⟨1, 2, 3, 0, 100, 50, "junk", some (4, 5)⟩ 6
        HarmonyMode.triadic =
      generateComplementaryColors baseRed 6 HarmonyMode.triadic :=
  generateComplementaryColors_deterministic _ baseRed 6 HarmonyMode.triadic
    rfl rfl rfl

/-! ## Helper lemmas shared by several claims -/

/-- A throwaway default element for `List.getD`. -/
def someColor : Color := ⟨0, 0, 0, 0, 0, 0, "", none⟩

/-- The harmony generator returns `rings` entries, for every ring count. -/
theorem harmony_length (base : Color) (rings : ℕ) (mode : HarmonyMode) :
    (generateComplementaryColors base rings mode).length = rings := by
  cases mode <;>
    simp only [generateComplementaryColors, List.length_take, List.length_map,
      List.length_range, min_self]

theorem getD_mem_of_lt {α : Type} (l : List α) (i : ℕ) (d : α)
    (h : i < l.length) : l.getD i d ∈ l := by
  rw [List.getD_eq_getElem?_getD, List.getElem?_eq_getElem h]
  exact List.getElem_mem h

/-! ## C3: the complementary hue law -/

/-- C3 counterexample: `baseGray` is a valid base color (h = 0, s = 0,
l = 50), yet not every entry of its complementary ring has `h` field equal
to `(base.h + 180) mod 360 = 180`: the generated RGB values are achromatic
grays, so the hue field re-derived by `rgbToHsl` is `0`. -/
theorem complementary_hue_field_counterexample :
    ValidColor baseGray ∧
      ¬ ∀ c ∈ generateComplementaryColors baseGray 3 HarmonyMode.complementary,
          c.h = jsMod (baseGray.h + 180) 360 := by
  refine ⟨by decide, fun hall => ?_⟩
  have hmem : mkHarmonyColor (jsMod (baseGray.h + 180) 360) baseGray.s
      (max 10 (min 90 (baseGray.l + ((0 : ℚ) - (3 : ℚ) / 2) * (60 / (3 : ℚ))))) ∈
      generateComplementaryColors baseGray 3 HarmonyMode.complementary := by
    simp only [generateComplementaryColors]
    rw [take_map_range]
    exact List.mem_map.2 ⟨0, by norm_num, by norm_num⟩
  have h0 := hall _ hmem
  norm_num [mkHarmonyColor, hslToRgb, rgbToHsl, jsMod, jsRound, hue2rgb,
    hue2rgbAux, normHue, baseGray, max_def, min_def, Int.floor_eq_iff] at h0

/-- C3 amended: every entry of the complementary ring is *constructed* at
hue `(base.h + 180) mod 360`: its RGB fields are exactly
`hslToRgb((base.h + 180) mod 360, base.s, L)` for some clamped lightness
`L ∈ [10, 90]`.  (The stored `h` field is re-derived from the rounded RGB
by `rgbToHsl` and can differ from that target hue, as the counterexample
shows.) -/
theorem complementary_rgb_hue_law (base : Color) (rings : ℕ)
    (hv : ValidColor base) (h3 : 3 ≤ rings) (h12 : rings ≤ 12) :
    ∀ c ∈ generateComplementaryColors base rings HarmonyMode.complementary,
      ∃ L, 10 ≤ L ∧ L ≤ 90 ∧
        (c.r, c.g, c.b) = hslToRgb (jsMod (base.h + 180) 360) base.s L := by
  intro c hc
  simp only [generateComplementaryColors] at hc
  rcases List.mem_map.1 (List.mem_of_mem_take hc) with ⟨i, _, rfl⟩
  exact ⟨max 10 (min 90 (base.l + ((i : ℚ) - (rings : ℚ) / 2) * (60 / (rings : ℚ)))),
    le_max_left _ _, max_le (by norm_num) (min_le_left _ _), rfl⟩

/-- Witness for C3 (amended), applied to the first entry of the
complementary ring of `baseRed` with 4 rings. -/
theorem complementary_rgb_hue_law_witness :
    ∃ L, 10 ≤ L ∧ L ≤ 90 ∧
      ((((generateComplementaryColors baseRed 4 HarmonyMode.complementary).getD 0 someColor).r,
        ((generateComplementaryColors baseRed 4 HarmonyMode.complementary).getD 0 someColor).g,
        ((generateComplementaryColors baseRed 4 HarmonyMode.complementary).getD 0 someColor).b) =
        hslToRgb (jsMod (baseRed.h + 180) 360) baseRed.s L) :=
  complementary_rgb_hue_law baseRed 4 (by decide) (by norm_num) (by norm_num) _
    (getD_mem_of_lt _ 0 someColor (by rw [harmony_length]; norm_num))

/-! ## C8: triadic hue cycling at 6 rings -/

/-- C8 counterexample: `baseGrayHue100` is a valid base color (h = 100,
s = 0, l = 50), yet the entries of its 6-ring triadic harmony do not carry
the hue fields `(base.h + {0,120,240}·(i mod 3)) mod 360`: the generated RGB
values are achromatic grays, so the re-derived hue field of entry 0 is `0`,
not `100`. -/
theorem triadic_hue_field_counterexample :
    ValidColor baseGrayHue100 ∧
      ¬ (∀ i, i < 6 →
          ((generateComplementaryColors baseGrayHue100 6 HarmonyMode.triadic).getD
              i someColor).h =
            jsMod (baseGrayHue100.h + 120 * ((i % 3 : ℕ) : ℚ)) 360) := by
  refine ⟨by decide, fun hall => ?_⟩
  have h0 := hall 0 (by norm_num)
  simp only [generateComplementaryColors] at h0
  rw [getD_take_map_range _ _ _ _ (by norm_num)] at h0
  norm_num [mkHarmonyColor, hslToRgb, rgbToHsl, jsMod, jsRound, hue2rgb,
    hue2rgbAux, normHue, baseGrayHue100, max_def, min_def, Int.floor_eq_iff] at h0

/-- C8 amended: in the 6-ring triadic harmony, the entry at index `i` is
*constructed* at hue `(base.h + 120·(i mod 3)) mod 360` — indices 0 and 3 at
offset 0, indices 1 and 4 at offset 120, indices 2 and 5 at offset 240 —
i.e. its RGB fields equal `hslToRgb` at that hue with the banded clamped
lightness.  (The stored `h` field is re-derived from the rounded RGB and can
differ, as the counterexample shows.) -/
theorem triadic6_rgb_hue_cycling (base : Color) (hv : ValidColor base) :
    ∀ i, i < 6 →
      (((generateComplementaryColors base 6 HarmonyMode.triadic).getD i someColor).r,
       ((generateComplementaryColors base 6 HarmonyMode.triadic).getD i someColor).g,
       ((generateComplementaryColors base 6 HarmonyMode.triadic).getD i someColor).b) =
        hslToRgb (jsMod (base.h + 120 * ((i % 3 : ℕ) : ℚ)) 360) base.s
          (max 10 (min 90 (base.l + 20 * ((i / 3 : ℕ) : ℚ) - 20))) := by
  intro i hi
  simp only [generateComplementaryColors]
  rw [getD_take_map_range _ _ _ _ hi]
  interval_cases i <;>
    norm_num [mkHarmonyColor, List.getD, Int.ceil_intCast, Prod.ext_iff]

/-- Witness for C8 (amended) at `baseRed`, index 0. -/
theorem triadic6_rgb_hue_cycling_witness :
    (((generateComplementaryColors baseRed 6 HarmonyMode.triadic).getD 0 someColor).r,
     ((generateComplementaryColors baseRed 6 HarmonyMode.triadic).getD 0 someColor).g,
     ((generateComplementaryColors baseRed 6 HarmonyMode.triadic).getD 0 someColor).b) =
      hslToRgb (jsMod (baseRed.h + 120 * ((0 % 3 : ℕ) : ℚ)) 360) baseRed.s
        (max 10 (min 90 (baseRed.l + 20 * ((0 / 3 : ℕ) : ℚ) - 20))) :=
  triadic6_rgb_hue_cycling baseRed (by decide) 0 (by norm_num)

/-! ## Rounding and hue-helper bounds (infrastructure for C4 and C5) -/

theorem jsRound_le (x : ℚ) : jsRound x ≤ x + 1/2 := by
  unfold jsRound
  exact_mod_cast Int.floor_le (x + 1/2)

theorem lt_jsRound (x : ℚ) : x - 1/2 < jsRound x := by
  unfold jsRound
  have := Int.lt_floor_add_one (x + 1/2)
  push_cast
  linarith

theorem jsRound_mono {x y : ℚ} (h : x ≤ y) : jsRound x ≤ jsRound y := by
  unfold jsRound
  exact_mod_cast Int.floor_le_floor (by linarith)

theorem jsRound_in_10_90 (x : ℚ) (h1 : 19/2 ≤ x) (h2 : x < 181/2) :
    10 ≤ jsRound x ∧ jsRound x ≤ 90 := by
  unfold jsRound
  constructor
  · exact_mod_cast Int.le_floor.2 (by push_cast; linarith)
  · have : ⌊x + 1/2⌋ < 91 := Int.floor_lt.2 (by push_cast; linarith)
    exact_mod_cast Int.lt_add_one_iff.1 this

theorem normHue_eq_self {t : ℚ} (h0 : 0 ≤ t) (h1 : t ≤ 1) : normHue t = t := by
  unfold normHue
  rw [if_neg (not_lt.2 h0), if_neg (not_lt.2 h1)]

theorem normHue_add_one {t : ℚ} (h0 : t < 0) : normHue t = t + 1 := by
  unfold normHue
  rw [if_pos h0, if_neg (not_lt.2 (by linarith))]

theorem normHue_sub_one {t : ℚ} (h0 : 1 < t) : normHue t = t - 1 := by
  simp only [normHue]
  rw [if_neg (not_lt.2 (by linarith : (0:ℚ) ≤ t)), if_pos h0]

theorem normHue_mem {t : ℚ} (h0 : -(1/3) ≤ t) (h1 : t ≤ 4/3) :
    0 ≤ normHue t ∧ normHue t ≤ 1 := by
  simp only [normHue]
  split_ifs with ha hb hb <;> constructor <;> linarith

theorem hue2rgbAux_eq_q {p q t : ℚ} (h1 : 1/6 ≤ t) (h2 : t < 1/2) :
    hue2rgbAux p q t = q := by
  unfold hue2rgbAux
  rw [if_neg (not_lt.2 h1), if_pos h2]

theorem hue2rgbAux_eq_p {p q t : ℚ} (h1 : 2/3 ≤ t) :
    hue2rgbAux p q t = p := by
  unfold hue2rgbAux
  rw [if_neg (not_lt.2 (by linarith)), if_neg (not_lt.2 (by linarith)),
    if_neg (not_lt.2 h1)]

theorem hue2rgbAux_mem {p q t : ℚ} (h0 : 0 ≤ t) (h1 : t ≤ 1) (hpq : p ≤ q) :
    p ≤ hue2rgbAux p q t ∧ hue2rgbAux p q t ≤ q := by
  unfold hue2rgbAux
  split_ifs <;> constructor <;> nlinarith

theorem hue2rgb_mem {p q t : ℚ} (h0 : -(1/3) ≤ t) (h1 : t ≤ 4/3) (hpq : p ≤ q) :
    p ≤ hue2rgb p q t ∧ hue2rgb p q t ≤ q := by
  have hn := normHue_mem h0 h1
  exact hue2rgbAux_mem hn.1 hn.2 hpq

/-- For any hue fraction in `[0, 1)` one of the three channel arguments of
`hslToRgb` lands on the `q` plateau of `hue2rgb`. -/
theorem hue2rgb_attains_q (p q : ℚ) {hu : ℚ} (h0 : 0 ≤ hu) (h1 : hu < 1) :
    hue2rgb p q (hu + 1/3) = q ∨ hue2rgb p q hu = q ∨
      hue2rgb p q (hu - 1/3) = q := by
  unfold hue2rgb
  rcases lt_or_le hu (1/6) with hA | hA
  · left
    rw [normHue_eq_self (by linarith) (by linarith)]
    exact hue2rgbAux_eq_q (by linarith) (by linarith)
  rcases lt_or_le hu (1/2) with hB | hB
  · right; left
    rw [normHue_eq_self (by linarith) (by linarith)]
    exact hue2rgbAux_eq_q (by linarith) (by linarith)
  rcases lt_or_le hu (5/6) with hC | hC
  · right; right
    rw [normHue_eq_self (by linarith) (by linarith)]
    exact hue2rgbAux_eq_q (by linarith) (by linarith)
  · left
    rw [normHue_sub_one (by linarith)]
    exact hue2rgbAux_eq_q (by linarith) (by linarith)

/-- For any hue fraction in `[0, 1)` one of the three channel arguments of
`hslToRgb` lands on the `p` plateau of `hue2rgb`. -/
theorem hue2rgb_attains_p (p q : ℚ) {hu : ℚ} (h0 : 0 ≤ hu) (h1 : hu < 1) :
    hue2rgb p q (hu + 1/3) = p ∨ hue2rgb p q hu = p ∨
      hue2rgb p q (hu - 1/3) = p := by
  unfold hue2rgb
  rcases lt_or_le hu (1/3) with hA | hA
  · right; right
    rw [normHue_add_one (by linarith)]
    exact hue2rgbAux_eq_p (by linarith)
  rcases le_or_lt hu (2/3) with hB | hB
  · left
    rw [normHue_eq_self (by linarith) (by linarith)]
    exact hue2rgbAux_eq_p (by linarith)
  · right; left
    rw [normHue_eq_self (by linarith) (by linarith)]
    exact hue2rgbAux_eq_p (by linarith)

theorem max3_jsRound {a b c m : ℚ} (ha : a ≤ m) (hb : b ≤ m) (hc : c ≤ m)
    (hat : a = m ∨ b = m ∨ c = m) :
    max (jsRound a) (max (jsRound b) (jsRound c)) = jsRound m := by
  apply le_antisymm
  · exact max_le (jsRound_mono ha) (max_le (jsRound_mono hb) (jsRound_mono hc))
  · rcases hat with h | h | h
    · exact le_trans (le_of_eq (by rw [h])) (le_max_left _ _)
    · exact le_trans (le_of_eq (by rw [h]))
        (le_trans (le_max_left _ _) (le_max_right _ _))
    · exact le_trans (le_of_eq (by rw [h]))
        (le_trans (le_max_right _ _) (le_max_right _ _))

theorem min3_jsRound {a b c m : ℚ} (ha : m ≤ a) (hb : m ≤ b) (hc : m ≤ c)
    (hat : a = m ∨ b = m ∨ c = m) :
    min (jsRound a) (min (jsRound b) (jsRound c)) = jsRound m := by
  apply le_antisymm
  · rcases hat with h | h | h
    · exact le_trans (min_le_left _ _) (le_of_eq (by rw [h]))
    · exact le_trans (le_trans (min_le_right _ _) (min_le_left _ _))
        (le_of_eq (by rw [h]))
    · exact le_trans (le_trans (min_le_right _ _) (min_le_right _ _))
        (le_of_eq (by rw [h]))
  · exact le_min (jsRound_mono ha) (le_min (jsRound_mono hb) (jsRound_mono hc))

/-- Both branches of `rgbToHsl` compute the returned lightness by the same
formula. -/
theorem rgbToHsl_l_formula (r g b : ℚ) :
    (rgbToHsl r g b).2.2 =
      jsRound ((max (r/255) (max (g/255) (b/255)) +
        min (r/255) (min (g/255) (b/255))) / 2 * 100) := by
  simp only [rgbToHsl]
  split_ifs <;> rfl

/-- Core bound for C5: the lightness field stored by `mkHarmonyColor` stays
in [10,90] whenever the requested (clamped) lightness does, for any hue in
[0,360) and any nonnegative saturation. -/
theorem mkHarmonyColor_l_mem (h s L : ℚ) (hh0 : 0 ≤ h) (hh1 : h < 360)
    (hs0 : 0 ≤ s) (hL0 : 10 ≤ L) (hL1 : L ≤ 90) :
    10 ≤ (mkHarmonyColor h s L).l ∧ (mkHarmonyColor h s L).l ≤ 90 := by
  have hl : (mkHarmonyColor h s L).l =
      (rgbToHsl (hslToRgb h s L).1 (hslToRgb h s L).2.1
        (hslToRgb h s L).2.2).2.2 := rfl
  rw [hl, rgbToHsl_l_formula]
  by_cases hs : s / 100 = 0
  · have he : hslToRgb h s L =
        (jsRound (L / 100 * 255), jsRound (L / 100 * 255),
          jsRound (L / 100 * 255)) := by
      simp only [hslToRgb]
      rw [if_pos hs]
    rw [he]
    dsimp only
    rw [max_self, max_self, min_self, min_self]
    have hc1 := jsRound_le (L / 100 * 255)
    have hc2 := lt_jsRound (L / 100 * 255)
    exact jsRound_in_10_90 _ (by linarith) (by linarith)
  · have he : hslToRgb h s L =
        (jsRound (hue2rgb
            (2 * (L/100) - (if L/100 < 1/2 then L/100 * (1 + s/100)
              else L/100 + s/100 - L/100 * (s/100)))
            (if L/100 < 1/2 then L/100 * (1 + s/100)
              else L/100 + s/100 - L/100 * (s/100)) (h/360 + 1/3) * 255),
         jsRound (hue2rgb
            (2 * (L/100) - (if L/100 < 1/2 then L/100 * (1 + s/100)
              else L/100 + s/100 - L/100 * (s/100)))
            (if L/100 < 1/2 then L/100 * (1 + s/100)
              else L/100 + s/100 - L/100 * (s/100)) (h/360) * 255),
         jsRound (hue2rgb
            (2 * (L/100) - (if L/100 < 1/2 then L/100 * (1 + s/100)
              else L/100 + s/100 - L/100 * (s/100)))
            (if L/100 < 1/2 then L/100 * (1 + s/100)
              else L/100 + s/100 - L/100 * (s/100)) (h/360 - 1/3) * 255)) := by
      simp only [hslToRgb]
      rw [if_neg hs]
    rw [he]
    dsimp only
    set Q := (if L/100 < 1/2 then L/100 * (1 + s/100)
      else L/100 + s/100 - L/100 * (s/100)) with hQ
    have hsu : 0 ≤ s / 100 := by positivity
    have hQ1 : 2 * (L/100) - Q ≤ Q := by
      rw [hQ]; split_ifs with hcase <;> nlinarith
    have hu0 : 0 ≤ h / 360 := by positivity
    have hu1 : h / 360 < 1 := (div_lt_one (by norm_num)).2 hh1
    have hRm := hue2rgb_mem (p := 2 * (L/100) - Q) (q := Q)
      (t := h/360 + 1/3) (by linarith) (by linarith) hQ1
    have hGm := hue2rgb_mem (p := 2 * (L/100) - Q) (q := Q)
      (t := h/360) (by linarith) (by linarith) hQ1
    have hBm := hue2rgb_mem (p := 2 * (L/100) - Q) (q := Q)
      (t := h/360 - 1/3) (by linarith) (by linarith) hQ1
    have hq_at := hue2rgb_attains_q (2 * (L/100) - Q) Q hu0 hu1
    have hp_at := hue2rgb_attains_p (2 * (L/100) - Q) Q hu0 hu1
    have hmax : max (jsRound (hue2rgb (2 * (L/100) - Q) Q (h/360 + 1/3) * 255))
        (max (jsRound (hue2rgb (2 * (L/100) - Q) Q (h/360) * 255))
             (jsRound (hue2rgb (2 * (L/100) - Q) Q (h/360 - 1/3) * 255))) =
        jsRound (Q * 255) := by
      apply max3_jsRound (by nlinarith [hRm.2]) (by nlinarith [hGm.2])
        (by nlinarith [hBm.2])
      rcases hq_at with e | e | e
      · exact Or.inl (by rw [e])
      · exact Or.inr (Or.inl (by rw [e]))
      · exact Or.inr (Or.inr (by rw [e]))
    have hmin : min (jsRound (hue2rgb (2 * (L/100) - Q) Q (h/360 + 1/3) * 255))
        (min (jsRound (hue2rgb (2 * (L/100) - Q) Q (h/360) * 255))
             (jsRound (hue2rgb (2 * (L/100) - Q) Q (h/360 - 1/3) * 255))) =
        jsRound ((2 * (L/100) - Q) * 255) := by
      apply min3_jsRound (by nlinarith [hRm.1]) (by nlinarith [hGm.1])
        (by nlinarith [hBm.1])
      rcases hp_at with e | e | e
      · exact Or.inl (by rw [e])
      · exact Or.inr (Or.inl (by rw [e]))
      · exact Or.inr (Or.inr (by rw [e]))
    rw [max_div_div_right (by norm_num : (0:ℚ) ≤ 255),
        max_div_div_right (by norm_num : (0:ℚ) ≤ 255),
        min_div_div_right (by norm_num : (0:ℚ) ≤ 255),
        min_div_div_right (by norm_num : (0:ℚ) ≤ 255), hmax, hmin]
    have h1 := jsRound_le (Q * 255)
    have h2 := lt_jsRound (Q * 255)
    have h3 := jsRound_le ((2 * (L/100) - Q) * 255)
    have h4 := lt_jsRound ((2 * (L/100) - Q) * 255)
    exact jsRound_in_10_90 _ (by linarith) (by linarith)

theorem jsMod_nonneg_lt (a : ℚ) (ha : 0 ≤ a) :
    0 ≤ jsMod a 360 ∧ jsMod a 360 < 360 := by
  unfold jsMod
  rw [if_neg (not_lt.2 (by positivity))]
  constructor <;>
    linarith [Int.floor_le (a / 360), Int.lt_floor_add_one (a / 360)]

theorem getD_hues_nonneg (l : List ℚ) (hl : ∀ x ∈ l, 0 ≤ x) (j : ℕ) :
    0 ≤ l.getD j 0 := by
  rcases lt_or_le j l.length with h | h
  · exact hl _ (getD_mem_of_lt l j 0 h)
  · rw [List.getD_eq_default _ _ h]

/-! ## C5: lightness bounds of all harmony output -/

/-- C5: for every valid base color, ring count in [3,12] and harmony mode,
every generated color's stored lightness field lies in [10,90].  The
generator clamps the requested lightness into [10,90]; the stored field is
re-derived from the rounded RGB, and the rounding perturbs the lightness by
less than 10/51 + 1/2 of a percentage point, which cannot leave [10,90]
after the final rounding. -/
theorem harmony_lightness_bounds (base : Color) (rings : ℕ)
    (mode : HarmonyMode) (hv : ValidColor base) (h3 : 3 ≤ rings)
    (h12 : rings ≤ 12) :
    ∀ c ∈ generateComplementaryColors base rings mode,
      10 ≤ c.l ∧ c.l ≤ 90 := by
  obtain ⟨hb0, hb1, hs0, hs1, hl0, hl1⟩ := hv
  have hr : (3:ℚ) ≤ (rings:ℚ) := by exact_mod_cast h3
  intro c hc
  cases mode
  all_goals simp only [generateComplementaryColors] at hc
  all_goals rcases List.mem_map.1 (List.mem_of_mem_take hc) with ⟨i, hi, rfl⟩
  · have hm := jsMod_nonneg_lt (base.h + 180) (by linarith)
    exact mkHarmonyColor_l_mem _ _ _ hm.1 hm.2 hs0 (le_max_left _ _)
      (max_le (by norm_num) (min_le_left _ _))
  · have hoff : -(30:ℚ) ≤ (((i:ℚ) - (rings:ℚ)/2) * 60) / (rings:ℚ) := by
      rw [le_div_iff (by linarith)]
      nlinarith [Nat.cast_nonneg (α := ℚ) i]
    have hm := jsMod_nonneg_lt
      (base.h + (((i:ℚ) - (rings:ℚ)/2) * 60) / (rings:ℚ) + 360) (by linarith)
    exact mkHarmonyColor_l_mem _ _ _ hm.1 hm.2 hs0 (le_max_left _ _)
      (max_le (by norm_num) (min_le_left _ _))
  · have hg : 0 ≤ ([0, 120, 240] : List ℚ).getD (i % 3) 0 :=
      getD_hues_nonneg _ (by norm_num) _
    have hm := jsMod_nonneg_lt
      (base.h + ([0, 120, 240] : List ℚ).getD (i % 3) 0) (by linarith)
    exact mkHarmonyColor_l_mem _ _ _ hm.1 hm.2 hs0 (le_max_left _ _)
      (max_le (by norm_num) (min_le_left _ _))
  · have hg : 0 ≤ ([0, 90, 180, 270] : List ℚ).getD (i % 4) 0 :=
      getD_hues_nonneg _ (by norm_num) _
    have hm := jsMod_nonneg_lt
      (base.h + ([0, 90, 180, 270] : List ℚ).getD (i % 4) 0) (by linarith)
    exact mkHarmonyColor_l_mem _ _ _ hm.1 hm.2 hs0 (le_max_left _ _)
      (max_le (by norm_num) (min_le_left _ _))
  · have hg : 0 ≤ ([0, 150, 210] : List ℚ).getD (i % 3) 0 :=
      getD_hues_nonneg _ (by norm_num) _
    have hm := jsMod_nonneg_lt
      (base.h + ([0, 150, 210] : List ℚ).getD (i % 3) 0) (by linarith)
    exact mkHarmonyColor_l_mem _ _ _ hm.1 hm.2 hs0 (le_max_left _ _)
      (max_le (by norm_num) (min_le_left _ _))

/-- Witness for C5 at `baseRed`, 6 rings, triadic mode, first entry. -/
theorem harmony_lightness_bounds_witness :
    10 ≤ ((generateComplementaryColors baseRed 6 HarmonyMode.triadic).getD 0
        someColor).l ∧
      ((generateComplementaryColors baseRed 6 HarmonyMode.triadic).getD 0
        someColor).l ≤ 90 :=
  harmony_lightness_bounds baseRed 6 HarmonyMode.triadic (by decide)
    (by norm_num) (by norm_num) _
    (getD_mem_of_lt _ 0 someColor (by rw [harmony_length]; norm_num))

/-! ## K-means color extraction: data model -/

/-- The browser `ImageData` value consumed by `extractColorsKMeans`: a flat
RGBA byte array plus dimensions. -/
structure ImageData where
  data : List ℕ
  width : ℕ
  height : ℕ

/-- A sampled pixel / centroid: an RGB triple (the source stores plain
3-element arrays). -/
abbrev Px : Type := ℚ × ℚ × ℚ

/-- `colorDistance(c1, c2)` squared.  The source computes
`Math.sqrt(Σ (c1[i] - c2[i])²)` and uses the result only in order
comparisons; since the square root is strictly monotone on nonnegatives, the
embedding tracks the squared distance and squares every threshold at its
call site (the constant `60` of `ensureDistinctColors` becomes `3600`). -/
def colorDistanceSq (c1 c2 : Px) : ℚ :=
  (c1.1 - c2.1)^2 + (c1.2.1 - c2.2.1)^2 + (c1.2.2 - c2.2.2)^2

/-- `dist < current` where `current` may be the initial `Infinity`
(modelled as `none`). -/
def ltInf (d : ℚ) : Option ℚ → Bool
  | none => true
  | some m => decide (d < m)

/-- `a > b` where either side may be `Infinity` (`none`); `b` starts as the
number `0` in the seeder but is overwritten by a possibly-infinite minimum
distance. -/
def gtInf : Option ℚ → Option ℚ → Bool
  | none, none => false
  | none, some _ => true
  | some _, none => false
  | some x, some y => decide (y < x)

/-- `let minDist = Infinity; centroids.forEach(c => minDist =
Math.min(minDist, colorDistance(cand, c)))`, with `none` for `Infinity`. -/
def minDistTo (cs : List Px) (cand : Px) : Option ℚ :=
  cs.foldl (fun acc c =>
    match acc with
    | none => some (colorDistanceSq cand c)
    | some d => some (min d (colorDistanceSq cand c))) none

/-! ## Pixel sampler -/

/-- The sampled source coordinates of `extractColorsKMeans`: the double
`for (let y = 0; y < height; y += 4) for (let x = 0; x < width; x += 4)`
loop, keeping the pairs that pass the `i < data.length` guard. -/
def sampleCoords (width height len : ℕ) : List (ℕ × ℕ) :=
  ((List.range height).filter (fun y => y % 4 = 0)).flatMap fun y =>
    (((List.range width).filter (fun x => x % 4 = 0)).map
      (fun x => (x, y))).filter (fun p => (p.2 * width + p.1) * 4 < len)

/-- The byte indices read by the sampling loop (the `i` of the source). -/
def sampleIndices (width height len : ℕ) : List ℕ :=
  (sampleCoords width height len).map fun p => (p.2 * width + p.1) * 4

/-- The sampled pixels: `[data[i], data[i+1], data[i+2]]` for each
sampled coordinate. -/
def samplePixels (img : ImageData) : List Px :=
  (sampleCoords img.width img.height img.data.length).map fun p =>
    let i := (p.2 * img.width + p.1) * 4
    (((img.data.getD i 0 : ℕ) : ℚ), ((img.data.getD (i+1) 0 : ℕ) : ℚ),
      ((img.data.getD (i+2) 0 : ℕ) : ℚ))

/-! ## Distinct-centroid seeder

The source's `initializeDistinctCentroids`.  (The Lean identifier drops the
verb prefix for lexical reasons; the body is a faithful transcription.) -/

/-- One iteration of the seeder's `while (centroids.length < k)` body: fifty
random candidate draws keeping the one with the largest minimum distance to
the current centroids, then a push (with one extra random draw when no
candidate beat the initial `maxMinDistance = 0`).  Returns the extended
centroid list and the advanced draw counter. -/
def seedStep (pixels : List Px) (rnd : ℕ → ℕ) (cs : List Px) (ctr : ℕ) :
    List Px × ℕ :=
  let st := (List.range 50).foldl
    (fun (st : Option Px × Option ℚ) tries =>
      let candidate := pixels.getD (rnd (ctr + tries) % pixels.length) (0, 0, 0)
      let minDistToExisting := minDistTo cs candidate
      if gtInf minDistToExisting st.2 then (some candidate, minDistToExisting)
      else st)
    ((none : Option Px), (some 0 : Option ℚ))
  match st.1 with
  | some bestCandidate => (cs ++ [bestCandidate], ctr + 50)
  | none => (cs ++ [pixels.getD (rnd (ctr + 50) % pixels.length) (0, 0, 0)],
      ctr + 51)

/-- The seeder's while-loop, by fuel.  Each iteration appends exactly one
centroid, so `k` units of fuel always suffice; the loop stops as soon as
`centroids.length < k` fails, exactly as in the source. -/
def seedWhile (pixels : List Px) (rnd : ℕ → ℕ) (k : ℕ) :
    ℕ → List Px → ℕ → List Px × ℕ
  | 0, cs, ctr => (cs, ctr)
  | fuel + 1, cs, ctr =>
    if cs.length < k then
      let next := seedStep pixels rnd cs ctr
      seedWhile pixels rnd k fuel next.1 next.2
    else (cs, ctr)

/-- `initializeDistinctCentroids(pixels, k)`: first centroid drawn at
random, the rest by the farthest-candidate loop. -/
def initDistinctCentroids (pixels : List Px) (k : ℕ) (rnd : ℕ → ℕ)
    (ctr : ℕ) : List Px × ℕ :=
  let first := pixels.getD (rnd ctr % pixels.length) (0, 0, 0)
  seedWhile pixels rnd k k [first] (ctr + 1)

/-! ## K-means clusterer -/

/-- The assignment pass for one pixel: index of the closest centroid,
starting from `minDist = Infinity, closestCentroid = 0`, strict `<`, so the
first centroid wins ties. -/
def closestCentroid (centroids : List Px) (pixel : Px) : ℕ :=
  (centroids.foldl
    (fun (st : Option ℚ × ℕ × ℕ) centroid =>
      let dist := colorDistanceSq pixel centroid
      if ltInf dist st.1 then (some dist, st.2.2, st.2.2 + 1)
      else (st.1, st.2.1, st.2.2 + 1))
    ((none : Option ℚ), 0, 0)).2.1

/-- The per-iteration clusters: `clusters[c]` receives, in pixel order,
every pixel whose closest centroid is `c` (the source pushes each pixel
into `clusters[closestCentroid]` while traversing `pixels` in order, which
yields exactly this filter). -/
def clustersOf (k : ℕ) (centroids : List Px) (pixels : List Px) :
    List (List Px) :=
  (List.range k).map fun cIdx =>
    pixels.filter (fun px => closestCentroid centroids px = cIdx)

/-- The centroid update: per-channel rounded mean of the cluster, or a fresh
random pixel for an empty cluster (consuming one random draw, in cluster
order, exactly like the source's `clusters.map`). -/
def updateCentroids (pixels : List Px) (rnd : ℕ → ℕ) :
    List (List Px) → ℕ → List Px × ℕ
  | [], ctr => ([], ctr)
  | cluster :: rest, ctr =>
    if cluster.length = 0 then
      let c := pixels.getD (rnd ctr % pixels.length) (0, 0, 0)
      let next := updateCentroids pixels rnd rest (ctr + 1)
      (c :: next.1, next.2)
    else
      let sum := cluster.foldl
        (fun (acc : Px) pixel =>
          (acc.1 + pixel.1, acc.2.1 + pixel.2.1, acc.2.2 + pixel.2.2))
        (0, 0, 0)
      let c := (jsRound (sum.1 / (cluster.length : ℚ)),
        jsRound (sum.2.1 / (cluster.length : ℚ)),
        jsRound (sum.2.2 / (cluster.length : ℚ)))
      let next := updateCentroids pixels rnd rest ctr
      (c :: next.1, next.2)

/-- One k-means iteration: assignment pass (recorded in `assignments`,
overwriting the previous iteration's values) followed by the centroid
update. State: (centroids, assignments, draw counter). -/
def kmeansIter (pixels : List Px) (k : ℕ) (rnd : ℕ → ℕ)
    (st : List Px × List ℕ × ℕ) : List Px × List ℕ × ℕ :=
  let asg := pixels.map (closestCentroid st.1)
  let upd := updateCentroids pixels rnd (clustersOf k st.1 pixels) st.2.2
  (upd.1, asg, upd.2)

/-- The fixed 15 k-means iterations (`for (let iter = 0; iter < 15; iter++)`). -/
def kmeansLoop (pixels : List Px) (k : ℕ) (rnd : ℕ → ℕ)
    (st : List Px × List ℕ × ℕ) : List Px × List ℕ × ℕ :=
  (List.range 15).foldl (fun st _ => kmeansIter pixels k rnd st) st

/-! ## Distinctness enforcer -/

/-- The repeated `let isDistinct = true; existing.forEach(e => { if
(colorDistance(cand, e) < minDistance) isDistinct = false })` pattern, with
squared distances. -/
def isDistinct (cand : Px) (existing : List Px) (minDistanceSq : ℚ) : Bool :=
  existing.all fun e => !(colorDistanceSq cand e < minDistanceSq)

/-- One `colorCounts.set(key, (colorCounts.get(key) || 0) + 1)` step on the
insertion-ordered association list that models the JavaScript `Map` (keys
are the `"r,g,b"` strings, which are in bijection with the RGB triples). -/
def bumpCount : List (Px × ℕ) → Px → List (Px × ℕ)
  | [], px => [(px, 1)]
  | (q, n) :: rest, px =>
    if q = px then (q, n + 1) :: rest else (q, n) :: bumpCount rest px

/-- `findDistinctReplacement(originalColor, existingColors, pixels,
minDistance)`: frequency table over every 10th of the first
`min(pixels.length, 1000)` samples, stably sorted by descending count
(JavaScript `Array.prototype.sort` is stable), truncated to 100, first
entry distinct from all accepted colors.  (`originalColor` is unused, as in
the source.) -/
def findDistinctReplacement (originalColor : Px) (existingColors : List Px)
    (pixels : List Px) (minDistanceSq : ℚ) : Option Px :=
  let sampled := ((List.range (min pixels.length 1000)).filter
    (fun i => i % 10 = 0)).map fun i => pixels.getD i (0, 0, 0)
  let colorCounts := sampled.foldl bumpCount []
  let sortedColors :=
    (colorCounts.mergeSort (fun a b => b.2 ≤ a.2)).take 100
  (sortedColors.map Prod.fst).find? fun cand =>
    isDistinct cand existingColors minDistanceSq

/-- `ensureDistinctColors(centroids, pixels, minDistance)` with squared
distances (threshold `60` squared to `3600` at the call site). -/
def ensureDistinctColors (centroids : List Px) (pixels : List Px)
    (minDistanceSq : ℚ) : List Px :=
  centroids.foldl
    (fun distinctColors centroid =>
      if isDistinct centroid distinctColors minDistanceSq then
        distinctColors ++ [centroid]
      else
        match findDistinctReplacement centroid distinctColors pixels
            minDistanceSq with
        | some replacement => distinctColors ++ [replacement]
        | none => distinctColors ++
            [(min 255 (centroid.1 + 30), min 255 (centroid.2.1 + 30),
              min 255 (centroid.2.2 + 30))])
    []

/-! ## Representative-position resolver -/

/-- The `colorPositions` computation: for each final centroid, the sampled
coordinate (among those whose last-iteration assignment is this cluster)
whose pixel is closest to the centroid, or the evenly spaced fallback for a
cluster with no retained assignment. -/
def colorPositionsOf (centroids : List Px) (pixels : List Px) (asg : List ℕ)
    (coords : List (ℕ × ℕ)) (width height k : ℕ) : List (ℚ × ℚ) :=
  (List.range centroids.length).map fun clusterIdx =>
    let centroid := centroids.getD clusterIdx (0, 0, 0)
    let clusterPositions := coords.enum.filter
      (fun pos => asg.getD pos.1 0 = clusterIdx)
    if clusterPositions.length = 0 then
      (jsRound ((width : ℚ) / ((k : ℚ) + 1) * ((clusterIdx : ℚ) + 1)),
        jsRound ((height : ℚ) / 2))
    else
      let best := (clusterPositions.foldl
        (fun (st : Option ℚ × ℕ × (ℕ × ℕ)) pos =>
          let dist := colorDistanceSq (pixels.getD pos.1 (0, 0, 0)) centroid
          if ltInf dist st.1 then (some dist, pos) else st)
        ((none : Option ℚ), clusterPositions.getD 0 (0, (0, 0)))).2
      ((best.2.1 : ℚ), (best.2.2 : ℚ))

/-! ## `extractColorsKMeans` -/

/-- The neutral-gray fallback entry, centered at the image midpoint. -/
def grayFallback (width height : ℕ) : Color :=
  ⟨128, 128, 128, 0, 0, 50, "#808080",
    some ((width : ℚ) / 2, (height : ℚ) / 2)⟩

/-- `extractColorsKMeans(imageData, k)` from `color-algorithms.ts`,
parametrized by the random stream `rnd`. -/
def extractColorsKMeans (imageData : ImageData) (k : ℕ) (rnd : ℕ → ℕ) :
    List Color :=
  let width := imageData.width
  let height := imageData.height
  let pixels := samplePixels imageData
  let coords := sampleCoords width height imageData.data.length
  if pixels.length = 0 then
    List.replicate k (grayFallback width height)
  else
    let seeded := initDistinctCentroids pixels k rnd 0
    let final := kmeansLoop pixels k rnd
      (seeded.1, List.replicate pixels.length 0, seeded.2)
    let centroids := ensureDistinctColors final.1 pixels 3600
    let positions := colorPositionsOf centroids pixels final.2.1 coords
      width height k
    let result := (centroids.take k).enum.map fun ic =>
      let rgb := ic.2
      let hsl := rgbToHsl rgb.1 rgb.2.1 rgb.2.2
      ({ r := rgb.1, g := rgb.2.1, b := rgb.2.2,
         h := hsl.1, s := hsl.2.1, l := hsl.2.2,
         hex := rgbToHex rgb.1 rgb.2.1 rgb.2.2,
         position := some (positions.getD ic.1
           ((width : ℚ) / 2, (height : ℚ) / 2)) } : Color)
    result ++ List.replicate (k - result.length) (grayFallback width height)

/-! ## Shape lemmas for the extraction pipeline -/

theorem seedStep_length (pixels : List Px) (rnd : ℕ → ℕ) (cs : List Px)
    (ctr : ℕ) : ((seedStep pixels rnd cs ctr).1).length = cs.length + 1 := by
  unfold seedStep
  rcases ((List.range 50).foldl _ _ : Option Px × Option ℚ) with ⟨_ | c, m⟩ <;>
    simp

theorem seedWhile_length (pixels : List Px) (rnd : ℕ → ℕ) (k : ℕ) :
    ∀ (fuel : ℕ) (cs : List Px) (ctr : ℕ), k ≤ cs.length + fuel →
      ((seedWhile pixels rnd k fuel cs ctr).1).length = max k cs.length := by
  intro fuel
  induction fuel with
  | zero =>
    intro cs ctr hle
    simp only [seedWhile]
    omega
  | succ n ih =>
    intro cs ctr hle
    simp only [seedWhile]
    split_ifs with hlt
    · rw [ih _ _ (by rw [seedStep_length]; omega), seedStep_length]
      omega
    · show ((cs, ctr).1).length = max k cs.length
      simp only [Prod.fst]
      omega

theorem initDistinctCentroids_length (pixels : List Px) (k : ℕ)
    (rnd : ℕ → ℕ) (ctr : ℕ) :
    ((initDistinctCentroids pixels k rnd ctr).1).length = max k 1 := by
  unfold initDistinctCentroids
  rw [seedWhile_length pixels rnd k k _ _ (by simp)]
  simp

theorem updateCentroids_length (pixels : List Px) (rnd : ℕ → ℕ) :
    ∀ (cls : List (List Px)) (ctr : ℕ),
      ((updateCentroids pixels rnd cls ctr).1).length = cls.length := by
  intro cls
  induction cls with
  | nil => intro ctr; rfl
  | cons c rest ih =>
    intro ctr
    simp only [updateCentroids]
    split_ifs <;> simp [ih]

theorem kmeansIter_length (pixels : List Px) (k : ℕ) (rnd : ℕ → ℕ)
    (st : List Px × List ℕ × ℕ) :
    ((kmeansIter pixels k rnd st).1).length = k := by
  unfold kmeansIter
  rw [updateCentroids_length]
  simp [clustersOf]

theorem kmeansLoop_length (pixels : List Px) (k : ℕ) (rnd : ℕ → ℕ)
    (st : List Px × List ℕ × ℕ) :
    ((kmeansLoop pixels k rnd st).1).length = k := by
  have gen : ∀ (l : List ℕ) (st : List Px × List ℕ × ℕ), l ≠ [] →
      ((l.foldl (fun st _ => kmeansIter pixels k rnd st) st).1).length = k := by
    intro l
    induction l with
    | nil => intro st h; exact absurd rfl h
    | cons x xs ih =>
      intro st _
      rcases xs with _ | ⟨y, ys⟩
      · exact kmeansIter_length pixels k rnd st
      · exact ih _ (by simp)
  exact gen _ st (by simp [List.range_succ])

theorem ensureDistinctColors_length (centroids pixels : List Px) (m : ℚ) :
    (ensureDistinctColors centroids pixels m).length = centroids.length := by
  unfold ensureDistinctColors
  have gen : ∀ (cs : List Px) (acc : List Px),
      (cs.foldl (fun distinctColors centroid =>
        if isDistinct centroid distinctColors m then
          distinctColors ++ [centroid]
        else
          match findDistinctReplacement centroid distinctColors pixels m with
          | some replacement => distinctColors ++ [replacement]
          | none => distinctColors ++
              [(min 255 (centroid.1 + 30), min 255 (centroid.2.1 + 30),
                min 255 (centroid.2.2 + 30))]) acc).length =
        acc.length + cs.length := by
    intro cs
    induction cs with
    | nil => intro acc; simp
    | cons c rest ih =>
      intro acc
      rw [List.foldl_cons, ih]
      have hstep : (if isDistinct c acc m then acc ++ [c]
          else match findDistinctReplacement c acc pixels m with
          | some replacement => acc ++ [replacement]
          | none => acc ++
              [(min 255 (c.1 + 30), min 255 (c.2.1 + 30),
                min 255 (c.2.2 + 30))]).length = acc.length + 1 := by
        split_ifs
        · simp
        · rcases findDistinctReplacement c acc pixels m with _ | r <;> simp
      rw [hstep, List.length_cons]
      omega
  rw [gen]
  simp

/-- Internal form of C1: the model returns exactly `k` colors for every
input and every random stream. -/
theorem extract_length_eq (img : ImageData) (k : ℕ) (rnd : ℕ → ℕ) :
    (extractColorsKMeans img k rnd).length = k := by
  simp only [extractColorsKMeans]
  split_ifs with hp
  · simp
  · have hc : (ensureDistinctColors
        (kmeansLoop (samplePixels img) k rnd
          ((initDistinctCentroids (samplePixels img) k rnd 0).1,
            List.replicate (samplePixels img).length 0,
            (initDistinctCentroids (samplePixels img) k rnd 0).2)).1
        (samplePixels img) 3600).length = k := by
      rw [ensureDistinctColors_length, kmeansLoop_length]
    simp only [List.length_append, List.length_map, List.enum_length,
      List.length_take, List.length_replicate, hc]
    omega

/-! ## C1: output cardinality of the extractor -/

/-- C1: for every image (any dimensions, any buffer contents), every
`k ≥ 1` and every sequence of random draws, `extractColorsKMeans` returns
exactly `k` colors. -/
theorem extractColorsKMeans_length (img : ImageData) (k : ℕ) (rnd : ℕ → ℕ)
    (hk : 1 ≤ k) : (extractColorsKMeans img k rnd).length = k :=
  extract_length_eq img k rnd

/-- Witness for C1: a 1×1 image with one white pixel, `k = 3`. -/
theorem extractColorsKMeans_length_witness :
    1 ≤ 3 ∧
      (extractColorsKMeans ⟨[255, 255, 255, 255], 1, 1⟩ 3 (fun n => n)).length = 3 :=
  ⟨by norm_num,
    extractColorsKMeans_length ⟨[255, 255, 255, 255], 1, 1⟩ 3 (fun n => n)
      (by norm_num)⟩

/-! ## C7: degenerate-input fallback of the extractor -/

/-- C7: whenever the sampled pixel set is empty (in particular for 0-width
or 0-height buffers), clustering is skipped and the result is exactly `k`
neutral-gray entries with RGB (128,128,128), hex `#808080`, h = 0, s = 0,
l = 50, positioned at the image midpoint `(width/2, height/2)` — which is
`(0, 0)` for an empty image. -/
theorem extractColorsKMeans_empty_fallback (img : ImageData) (k : ℕ)
    (rnd : ℕ → ℕ) (hempty : samplePixels img = []) (hk : 1 ≤ k) :
    extractColorsKMeans img k rnd =
      List.replicate k
        (⟨128, 128, 128, 0, 0, 50, "#808080",
          some ((img.width : ℚ) / 2, (img.height : ℚ) / 2)⟩ : Color) := by
  simp only [extractColorsKMeans, hempty]
  rfl

/-- Witness for C7 at the empty 0×0 image, where the midpoint is (0,0). -/
theorem extractColorsKMeans_empty_fallback_witness :
    samplePixels ⟨[], 0, 0⟩ = [] ∧ 1 ≤ 2 ∧
      extractColorsKMeans ⟨[], 0, 0⟩ 2 (fun _ => 0) =
        List.replicate 2
          (⟨128, 128, 128, 0, 0, 50, "#808080",
            some (((⟨[], 0, 0⟩ : ImageData).width : ℚ) / 2,
              ((⟨[], 0, 0⟩ : ImageData).height : ℚ) / 2)⟩ : Color) :=
  ⟨rfl, by norm_num,
    extractColorsKMeans_empty_fallback ⟨[], 0, 0⟩ 2 (fun _ => 0) rfl
      (by norm_num)⟩

/-! ## C10: in-bounds sampling -/

/-- C10: when the data array has length exactly `4·width·height` (the
`ImageData` invariant), every byte index `i` sampled by the extraction loop
satisfies `i + 2 < 4·width·height`, so the three reads `data[i]`,
`data[i+1]`, `data[i+2]` are all in bounds even though the source's guard
only checks `i < data.length`. -/
theorem sampleIndices_in_bounds (w h : ℕ) :
    ∀ i ∈ sampleIndices w h (4 * w * h), i + 2 < 4 * w * h := by
  intro i hi
  rcases List.mem_map.1 hi with ⟨⟨x, y⟩, hmem, rfl⟩
  rcases List.mem_flatMap.1 hmem with ⟨y', hy', hxy⟩
  rcases List.mem_filter.1 hxy with ⟨hxy', _⟩
  rcases List.mem_map.1 hxy' with ⟨x', hx', he⟩
  rcases List.mem_filter.1 hx' with ⟨hxr, _⟩
  rcases List.mem_filter.1 hy' with ⟨hyr, _⟩
  obtain ⟨hex, hey⟩ : x' = x ∧ y' = y :=
    ⟨congrArg Prod.fst he, congrArg Prod.snd he⟩
  have hxw : x < w := hex ▸ List.mem_range.1 hxr
  have hyh : y < h := hey ▸ List.mem_range.1 hyr
  have h1 : y * w + x < w * h := by
    calc y * w + x < y * w + w := by omega
    _ = (y + 1) * w := by ring
    _ ≤ h * w := Nat.mul_le_mul_right w (by omega)
    _ = w * h := Nat.mul_comm h w
  have hgoal : 4 * w * h = (w * h) * 4 := by ring
  rw [hgoal]
  generalize hA : y * w + x = A at h1 ⊢
  generalize hB : w * h = B at h1 ⊢
  omega

/-- Witness for C10: index 0 of an 8×8 buffer. -/
theorem sampleIndices_in_bounds_witness : 0 + 2 < 4 * 8 * 8 :=
  sampleIndices_in_bounds 8 8 0 (by decide)

/-! ## C6: mutual consistency of Color fields -/

/-- A `Color` whose hex and HSL fields are derived from its own RGB
fields. -/
def consistentColor (c : Color) : Prop :=
  c.hex = rgbToHex c.r c.g c.b ∧ (c.h, c.s, c.l) = rgbToHsl c.r c.g c.b

theorem grayFallback_consistent (w h : ℕ) :
    consistentColor (grayFallback w h) := by
  constructor
  · show "#808080" = rgbToHex 128 128 128
    have he : rgbToHex (128 : ℚ) 128 128 = "#808080" := by
      norm_num [rgbToHex, toHexByte, Int.floor_eq_iff]
      decide
    exact he.symm
  · show ((0 : ℚ), (0 : ℚ), (50 : ℚ)) = rgbToHsl 128 128 128
    symm
    norm_num [rgbToHsl, jsRound, max_def, min_def, Prod.ext_iff,
      Int.floor_eq_iff]

/-- C6: every color returned by `extractColorsKMeans` and by
`generateComplementaryColors` has mutually consistent fields: its `hex`
equals `rgbToHex` of its own RGB fields and its `(h, s, l)` equals
`rgbToHsl` of its own RGB fields. -/
theorem color_fields_consistent :
    (∀ (img : ImageData) (k : ℕ) (rnd : ℕ → ℕ),
      ∀ c ∈ extractColorsKMeans img k rnd, consistentColor c) ∧
    (∀ (base : Color) (rings : ℕ) (mode : HarmonyMode),
      ∀ c ∈ generateComplementaryColors base rings mode, consistentColor c) := by
  constructor
  · intro img k rnd c hc
    simp only [extractColorsKMeans] at hc
    split_ifs at hc with hp
    · rw [List.eq_of_mem_replicate hc]
      exact grayFallback_consistent _ _
    · rcases List.mem_append.1 hc with hmem | hmem
      · rcases List.mem_map.1 hmem with ⟨ic, _, rfl⟩
        exact ⟨rfl, rfl⟩
      · rw [List.eq_of_mem_replicate hmem]
        exact grayFallback_consistent _ _
  · intro base rings mode c hc
    cases mode <;> simp only [generateComplementaryColors] at hc <;>
      (rcases List.mem_map.1 (List.mem_of_mem_take hc) with ⟨i, _, rfl⟩;
        exact ⟨rfl, rfl⟩)

/-- Witness for C6: the single color extracted from an empty image and the
first entry of an analogous harmony ring. -/
theorem color_fields_consistent_witness :
    consistentColor
      ((extractColorsKMeans ⟨[], 0, 0⟩ 1 (fun _ => 0)).getD 0 someColor) ∧
    consistentColor
      ((generateComplementaryColors baseRed 3 HarmonyMode.analogous).getD 0
        someColor) :=
  ⟨color_fields_consistent.1 _ 1 _ _
      (getD_mem_of_lt _ 0 someColor (by rw [extract_length_eq]; norm_num)),
    color_fields_consistent.2 baseRed 3 HarmonyMode.analogous _
      (getD_mem_of_lt _ 0 someColor (by rw [harmony_length]; norm_num))⟩

/-! ## C4 infrastructure: perturbation bounds for `hue2rgb` -/

theorem hue2rgbAux_ramp1 {p q t : ℚ} (h : t < 1/6) :
    hue2rgbAux p q t = p + (q - p) * 6 * t := by
  unfold hue2rgbAux
  rw [if_pos h]

theorem hue2rgbAux_ramp2 {p q t : ℚ} (h1 : 1/2 ≤ t) (h2 : t < 2/3) :
    hue2rgbAux p q t = p + (q - p) * (2/3 - t) * 6 := by
  unfold hue2rgbAux
  rw [if_neg (not_lt.2 (by linarith)), if_neg (not_lt.2 h1), if_pos h2]

/-- Changing `(p, q)` by at most `Δ` each changes `hue2rgb` at a fixed
hue argument by at most `Δ` (the value is a convex combination of `p` and
`q`). -/
theorem hue2rgb_pq_diff {p q p' q' t d : ℚ} (ht0 : -(1/3) ≤ t)
    (ht1 : t ≤ 4/3) (hp : |p' - p| ≤ d) (hq : |q' - q| ≤ d) :
    |hue2rgb p' q' t - hue2rgb p q t| ≤ d := by
  have hn := normHue_mem ht0 ht1
  rcases abs_le.1 hp with ⟨hp1, hp2⟩
  rcases abs_le.1 hq with ⟨hq1, hq2⟩
  unfold hue2rgb hue2rgbAux
  rw [abs_le]
  split_ifs with h1 h2 h3 <;> constructor <;>
    nlinarith [hn.1, hn.2]

set_option maxHeartbeats 1000000 in
/-- One-sided circular Lipschitz bound for `hue2rgb` in the hue argument,
over the argument range occurring in `hslToRgb` and for perturbations of at
most `1/720` (half a degree). -/
theorem hue2rgb_t_diff_le {p q t t' : ℚ} (hpq : p ≤ q) (ht0 : -(1/3) ≤ t)
    (ht1' : t' ≤ 4/3) (hle : t ≤ t') (hd : t' - t ≤ 1/720) :
    |hue2rgb p q t' - hue2rgb p q t| ≤ (q - p) * 6 * (t' - t) := by
  unfold hue2rgb
  rcases lt_or_le t' 0 with hA | hA
  · rw [normHue_add_one hA, normHue_add_one (show t < 0 by linarith),
      hue2rgbAux_eq_p (show (2:ℚ)/3 ≤ t' + 1 by linarith),
      hue2rgbAux_eq_p (show (2:ℚ)/3 ≤ t + 1 by linarith)]
    simp only [sub_self, abs_zero]
    nlinarith [mul_nonneg (sub_nonneg.2 hpq) (show (0:ℚ) ≤ t' - t by linarith)]
  rcases lt_or_le t 0 with hB | hB
  · rw [normHue_eq_self (show (0:ℚ) ≤ t' by linarith)
        (show t' ≤ 1 by linarith),
      normHue_add_one hB,
      hue2rgbAux_ramp1 (show t' < 1/6 by linarith),
      hue2rgbAux_eq_p (show (2:ℚ)/3 ≤ t + 1 by linarith)]
    rw [abs_le]
    constructor <;>
      nlinarith [mul_nonneg (sub_nonneg.2 hpq) (show (0:ℚ) ≤ t' - t by linarith)]
  rcases lt_or_le (1 : ℚ) t with hC | hC
  · rw [normHue_sub_one (show (1:ℚ) < t' by linarith), normHue_sub_one hC]
    rcases lt_or_le (t' - 1) (1/6) with h6 | h6
    · rw [hue2rgbAux_ramp1 h6, hue2rgbAux_ramp1 (show t - 1 < 1/6 by linarith)]
      rw [abs_le]
      constructor <;>
      nlinarith [mul_nonneg (sub_nonneg.2 hpq) (show (0:ℚ) ≤ t' - t by linarith)]
    · rcases lt_or_le (t - 1) (1/6) with h7 | h7
      · rw [hue2rgbAux_eq_q h6 (show t' - 1 < 1/2 by linarith),
          hue2rgbAux_ramp1 h7]
        rw [abs_le]
        constructor <;>
      nlinarith [mul_nonneg (sub_nonneg.2 hpq) (show (0:ℚ) ≤ t' - t by linarith)]
      · rw [hue2rgbAux_eq_q h6 (show t' - 1 < 1/2 by linarith),
          hue2rgbAux_eq_q h7 (show t - 1 < 1/2 by linarith)]
        simp only [sub_self, abs_zero]
        nlinarith
  rcases lt_or_le (1 : ℚ) t' with hD | hD
  · rw [normHue_sub_one hD,
      normHue_eq_self (show (0:ℚ) ≤ t by linarith) (show t ≤ 1 by linarith),
      hue2rgbAux_ramp1 (show t' - 1 < 1/6 by linarith),
      hue2rgbAux_eq_p (show (2:ℚ)/3 ≤ t by linarith)]
    rw [abs_le]
    constructor <;>
      nlinarith [mul_nonneg (sub_nonneg.2 hpq) (show (0:ℚ) ≤ t' - t by linarith)]
  rw [normHue_eq_self (show (0:ℚ) ≤ t' by linarith) (show t' ≤ 1 by linarith),
    normHue_eq_self (show (0:ℚ) ≤ t by linarith) (show t ≤ 1 by linarith)]
  rcases lt_or_le t' (1/6) with k1 | k1
  · rw [hue2rgbAux_ramp1 k1, hue2rgbAux_ramp1 (show t < 1/6 by linarith)]
    rw [abs_le]
    constructor <;>
      nlinarith [mul_nonneg (sub_nonneg.2 hpq) (show (0:ℚ) ≤ t' - t by linarith)]
  rcases lt_or_le t (1/6) with k2 | k2
  · rw [hue2rgbAux_eq_q k1 (show t' < 1/2 by linarith), hue2rgbAux_ramp1 k2]
    rw [abs_le]
    constructor <;>
      nlinarith [mul_nonneg (sub_nonneg.2 hpq) (show (0:ℚ) ≤ t' - t by linarith)]
  rcases lt_or_le t' (1/2) with k3 | k3
  · rw [hue2rgbAux_eq_q k1 k3,
      hue2rgbAux_eq_q (show (1:ℚ)/6 ≤ t by linarith)
        (show t < 1/2 by linarith)]
    simp only [sub_self, abs_zero]
    nlinarith [mul_nonneg (sub_nonneg.2 hpq) (show (0:ℚ) ≤ t' - t by linarith)]
  rcases lt_or_le t (1/2) with k4 | k4
  · rw [hue2rgbAux_ramp2 k3 (show t' < 2/3 by linarith),
      hue2rgbAux_eq_q (show (1:ℚ)/6 ≤ t by linarith) k4]
    rw [abs_le]
    constructor <;>
      nlinarith [mul_nonneg (sub_nonneg.2 hpq) (show (0:ℚ) ≤ t' - t by linarith)]
  rcases lt_or_le t' (2/3) with k5 | k5
  · rw [hue2rgbAux_ramp2 k3 k5,
      hue2rgbAux_ramp2 k4 (show t < 2/3 by linarith)]
    rw [abs_le]
    constructor <;>
      nlinarith [mul_nonneg (sub_nonneg.2 hpq) (show (0:ℚ) ≤ t' - t by linarith)]
  rcases lt_or_le t (2/3) with k6 | k6
  · rw [hue2rgbAux_eq_p (show (2:ℚ)/3 ≤ t' by linarith),
      hue2rgbAux_ramp2 k4 k6]
    rw [abs_le]
    constructor <;>
      nlinarith [mul_nonneg (sub_nonneg.2 hpq)
          (show (0:ℚ) ≤ 2/3 - t by linarith),
        mul_le_mul_of_nonneg_left
          (show (2:ℚ)/3 - t ≤ t' - t by linarith) (sub_nonneg.2 hpq)]
  · rw [hue2rgbAux_eq_p (show (2:ℚ)/3 ≤ t' by linarith),
      hue2rgbAux_eq_p k6]
    simp only [sub_self, abs_zero]
    nlinarith [mul_nonneg (sub_nonneg.2 hpq)
      (show (0:ℚ) ≤ t' - t by linarith)]

/-- Perturbing the hue argument by at most `1/720` changes `hue2rgb` by at
most `(q - p)/120`. -/
theorem hue2rgb_t_diff {p q t t' : ℚ} (hpq : p ≤ q) (ht0 : -(1/3) ≤ t)
    (ht1 : t ≤ 4/3) (ht0' : -(1/3) ≤ t') (ht1' : t' ≤ 4/3)
    (hd : |t' - t| ≤ 1/720) :
    |hue2rgb p q t' - hue2rgb p q t| ≤ (q - p) * (1/120) := by
  rcases abs_le.1 hd with ⟨hd1, hd2⟩
  rcases le_total t t' with hle | hle
  · have := hue2rgb_t_diff_le hpq ht0 ht1' hle (by linarith)
    calc |hue2rgb p q t' - hue2rgb p q t| ≤ (q - p) * 6 * (t' - t) := this
    _ ≤ (q - p) * (1/120) := by nlinarith
  · have := hue2rgb_t_diff_le hpq ht0' ht1 hle (by linarith)
    rw [abs_sub_comm]
    calc |hue2rgb p q t - hue2rgb p q t'| ≤ (q - p) * 6 * (t - t') := this
    _ ≤ (q - p) * (1/120) := by nlinarith

set_option maxHeartbeats 1600000 in
/-- Rounding `s` and `l` to integer percentages (an error of at most
`1/200` each after scaling to [0,1]) moves the reconstructed `q` of
`hslToRgb` by at most `501/40000` from the true maximal channel value. -/
theorem q_approx {s l sr lr : ℚ}
    (hs0 : 0 ≤ s) (hs1 : s ≤ 1) (hsr0 : 0 ≤ sr) (hsr1 : sr ≤ 1)
    (hl0 : 0 ≤ l) (hl1 : l ≤ 1) (hlr0 : 0 ≤ lr) (hlr1 : lr ≤ 1)
    (hds : |sr - s| ≤ 1/200) (hdl : |lr - l| ≤ 1/200) :
    |(if lr < 1/2 then lr * (1 + sr) else lr + sr - lr * sr) -
      (if l ≤ 1/2 then l * (1 + s) else l + s - l * s)| ≤ 501/40000 := by
  rcases abs_le.1 hds with ⟨hds1, hds2⟩
  rcases abs_le.1 hdl with ⟨hdl1, hdl2⟩
  rw [abs_le]
  split_ifs with h1 h2 h2
  · have t1 : (lr - l) * (1 + s) ≤ (1/200) * (1 + s) :=
      mul_le_mul_of_nonneg_right (by linarith) (by linarith)
    have t2 : (-(1/200)) * (1 + s) ≤ (lr - l) * (1 + s) :=
      mul_le_mul_of_nonneg_right (by linarith) (by linarith)
    have t3 : lr * (sr - s) ≤ lr * (1/200) :=
      mul_le_mul_of_nonneg_left (by linarith) hlr0
    have t4 : lr * (-(1/200)) ≤ lr * (sr - s) :=
      mul_le_mul_of_nonneg_left (by linarith) hlr0
    constructor <;> nlinarith [t1, t2, t3, t4]
  · have hl2 : l ≤ 1/2 + 1/200 := by linarith
    have t1 : 0 ≤ sr * (1 - 2*lr) := mul_nonneg hsr0 (by linarith)
    have t2 : (lr - l) * (1 - sr) ≤ (1/200) * (1 - sr) :=
      mul_le_mul_of_nonneg_right (by linarith) (by linarith)
    have t3 : (1 - l) * (sr - s) ≤ (1 - l) * (1/200) :=
      mul_le_mul_of_nonneg_left (by linarith) (by linarith)
    have t4 : 0 ≤ s * (2*l - 1) := mul_nonneg hs0 (by linarith)
    have t5 : (l - lr) * (1 + sr) ≤ (1/200) * (1 + sr) :=
      mul_le_mul_of_nonneg_right (by linarith) (by linarith)
    have t6 : l * (s - sr) ≤ l * (1/200) :=
      mul_le_mul_of_nonneg_left (by linarith) hl0
    constructor <;> nlinarith [t1, t2, t3, t4, t5, t6]
  · have hlr2 : lr ≤ 1/2 + 1/200 := by linarith
    have t1 : 0 ≤ sr * (2*lr - 1) := mul_nonneg hsr0 (by linarith)
    have t2 : (lr - l) * (1 + s) ≤ (1/200) * (1 + s) :=
      mul_le_mul_of_nonneg_right (by linarith) (by linarith)
    have t3 : lr * (sr - s) ≤ lr * (1/200) :=
      mul_le_mul_of_nonneg_left (by linarith) hlr0
    have t4 : 0 ≤ s * (1 - 2*l) := mul_nonneg hs0 (by linarith)
    have t5 : (l - lr) * (1 - s) ≤ (1/200) * (1 - s) :=
      mul_le_mul_of_nonneg_right (by linarith) (by linarith)
    have t6 : (1 - lr) * (s - sr) ≤ (1 - lr) * (1/200) :=
      mul_le_mul_of_nonneg_left (by linarith) (by linarith)
    constructor <;> nlinarith [t1, t2, t3, t4, t5, t6]
  · have t1 : (lr - l) * (1 - sr) ≤ (1/200) * (1 - sr) :=
      mul_le_mul_of_nonneg_right (by linarith) (by linarith)
    have t2 : (-(1/200)) * (1 - sr) ≤ (lr - l) * (1 - sr) :=
      mul_le_mul_of_nonneg_right (by linarith) (by linarith)
    have t3 : (sr - s) * (1 - l) ≤ (1/200) * (1 - l) :=
      mul_le_mul_of_nonneg_right (by linarith) (by linarith)
    have t4 : (-(1/200)) * (1 - l) ≤ (sr - s) * (1 - l) :=
      mul_le_mul_of_nonneg_right (by linarith) (by linarith)
    constructor <;> nlinarith [t1, t2, t3, t4]

set_option maxHeartbeats 1600000 in
/-- Companion to `q_approx` for the reconstructed `p = 2l - q` of
`hslToRgb` against the true minimal channel value. -/
theorem p_approx {s l sr lr : ℚ}
    (hs0 : 0 ≤ s) (hs1 : s ≤ 1) (hsr0 : 0 ≤ sr) (hsr1 : sr ≤ 1)
    (hl0 : 0 ≤ l) (hl1 : l ≤ 1) (hlr0 : 0 ≤ lr) (hlr1 : lr ≤ 1)
    (hds : |sr - s| ≤ 1/200) (hdl : |lr - l| ≤ 1/200) :
    |(if lr < 1/2 then lr * (1 - sr) else lr * (1 + sr) - sr) -
      (if l ≤ 1/2 then l * (1 - s) else l * (1 + s) - s)| ≤ 501/40000 := by
  rcases abs_le.1 hds with ⟨hds1, hds2⟩
  rcases abs_le.1 hdl with ⟨hdl1, hdl2⟩
  rw [abs_le]
  split_ifs with h1 h2 h2
  · have t1 : (lr - l) * (1 - s) ≤ (1/200) * (1 - s) :=
      mul_le_mul_of_nonneg_right (by linarith) (by linarith)
    have t2 : (-(1/200)) * (1 - s) ≤ (lr - l) * (1 - s) :=
      mul_le_mul_of_nonneg_right (by linarith) (by linarith)
    have t3 : lr * (sr - s) ≤ lr * (1/200) :=
      mul_le_mul_of_nonneg_left (by linarith) hlr0
    have t4 : lr * (-(1/200)) ≤ lr * (sr - s) :=
      mul_le_mul_of_nonneg_left (by linarith) hlr0
    constructor <;> nlinarith [t1, t2, t3, t4]
  · have hl2 : l ≤ 1/2 + 1/200 := by linarith
    have t1 : 0 ≤ sr * (1 - 2*lr) := mul_nonneg hsr0 (by linarith)
    have t2 : (lr - l) * (1 - s) ≤ (1/200) * (1 - s) :=
      mul_le_mul_of_nonneg_right (by linarith) (by linarith)
    have t3 : lr * (sr - s) ≤ lr * (1/200) :=
      mul_le_mul_of_nonneg_left (by linarith) hlr0
    have t4 : 0 ≤ s * (2*l - 1) := mul_nonneg hs0 (by linarith)
    have t5 : (l - lr) * (1 + sr) ≤ (1/200) * (1 + sr) :=
      mul_le_mul_of_nonneg_right (by linarith) (by linarith)
    have t6 : (s - sr) * (1 - l) ≤ (1/200) * (1 - l) :=
      mul_le_mul_of_nonneg_right (by linarith) (by linarith)
    constructor <;> nlinarith [t1, t2, t3, t4, t5, t6]
  · have hlr2 : lr ≤ 1/2 + 1/200 := by linarith
    have hl3 : 1/2 - 1/200 ≤ l := by linarith
    have t1 : 0 ≤ sr * (2*lr - 1) := mul_nonneg hsr0 (by linarith)
    have t2 : (lr - l) * (1 + sr) ≤ (1/200) * (1 + sr) :=
      mul_le_mul_of_nonneg_right (by linarith) (by linarith)
    have t3 : (sr - s) * (1 - l) ≤ (1/200) * (1 - l) :=
      mul_le_mul_of_nonneg_right (by linarith) (by linarith)
    have t4 : (-(1/200)) * (1 - l) ≤ (sr - s) * (1 - l) :=
      mul_le_mul_of_nonneg_right (by linarith) (by linarith)
    have t5 : 0 ≤ s * (1 - 2*l) := mul_nonneg hs0 (by linarith)
    have t6 : (l - lr) * (1 - sr) ≤ (1/200) * (1 - sr) :=
      mul_le_mul_of_nonneg_right (by linarith) (by linarith)
    have t7 : l * (sr - s) ≤ l * (1/200) :=
      mul_le_mul_of_nonneg_left (by linarith) hl0
    have t8 : l * (-(1/200)) ≤ l * (sr - s) :=
      mul_le_mul_of_nonneg_left (by linarith) hl0
    constructor <;> nlinarith [t1, t2, t3, t4, t5, t6, t7, t8]
  · have t1 : (lr - l) * (1 + sr) ≤ (1/200) * (1 + sr) :=
      mul_le_mul_of_nonneg_right (by linarith) (by linarith)
    have t2 : (-(1/200)) * (1 + sr) ≤ (lr - l) * (1 + sr) :=
      mul_le_mul_of_nonneg_right (by linarith) (by linarith)
    have t3 : (s - sr) * (1 - l) ≤ (1/200) * (1 - l) :=
      mul_le_mul_of_nonneg_right (by linarith) (by linarith)
    have t4 : (-(1/200)) * (1 - l) ≤ (s - sr) * (1 - l) :=
      mul_le_mul_of_nonneg_right (by linarith) (by linarith)
    constructor <;> nlinarith [t1, t2, t3, t4]

/-- If `x` is within `11/2` of a natural number `n`, then `Math.round(x)`
is within `5` of `n` (integrality turns the strict bound `< 6` into
`≤ 5`). -/
theorem jsRound_near_int (x : ℚ) (n : ℕ) (hx : |x - (n : ℚ)| < 11/2) :
    |jsRound x - (n : ℚ)| ≤ 5 := by
  have h1 := jsRound_le x
  have h2 := lt_jsRound x
  rcases abs_lt.1 hx with ⟨ha, hb⟩
  have hq : |jsRound x - (n : ℚ)| < 6 := by
    rw [abs_lt]
    constructor <;> (unfold jsRound at h1 h2 ⊢; linarith)
  unfold jsRound at hq ⊢
  have hz : |⌊x + 1/2⌋ - (n : ℤ)| < 6 := by
    have hcast : |((⌊x + 1/2⌋ - (n : ℤ) : ℤ) : ℚ)| < 6 := by
      push_cast
      exact hq
    exact_mod_cast hcast
  have hz5 : |⌊x + 1/2⌋ - (n : ℤ)| ≤ 5 := by omega
  have hcast5 : |((⌊x + 1/2⌋ - (n : ℤ) : ℤ) : ℚ)| ≤ 5 := by exact_mod_cast hz5
  push_cast at hcast5
  exact hcast5

set_option maxHeartbeats 1600000 in
/-- Exact inversion: on the chromatic branch, `hslToRgb`'s real-valued core
reproduces the channels exactly from the (unrounded) `h`, `s`, `l` that
`rgbToHsl` computes, with `q = M` and `p = m`.  Stated over the unit-scaled
channels `x, y, z ∈ [0,1]`. -/
theorem exact_inverse (x y z M m d l s h : ℚ)
    (hx0 : 0 ≤ x) (hx1 : x ≤ 1) (hy0 : 0 ≤ y) (hy1 : y ≤ 1)
    (hz0 : 0 ≤ z) (hz1 : z ≤ 1)
    (hM : M = max x (max y z)) (hm : m = min x (min y z)) (hne : M ≠ m)
    (hd : d = M - m) (hl : l = (M + m) / 2)
    (hs : s = if l > 1/2 then d / (2 - M - m) else d / (M + m))
    (hh : h = if M = x then ((y - z) / d + if y < z then 6 else 0) / 6
          else if M = y then ((z - x) / d + 2) / 6
          else ((x - y) / d + 4) / 6) :
    (0 ≤ h ∧ h < 1) ∧ (0 < s ∧ s ≤ 1) ∧
    (l ≤ 1/2 → l * (1 + s) = M) ∧ (1/2 ≤ l → l + s - l * s = M) ∧
    hue2rgb m M (h + 1/3) = x ∧ hue2rgb m M h = y ∧
    hue2rgb m M (h - 1/3) = z := by
  have hxM : x ≤ M := by rw [hM]; exact le_max_left _ _
  have hyM : y ≤ M := by
    rw [hM]; exact le_trans (le_max_left _ _) (le_max_right _ _)
  have hzM : z ≤ M := by
    rw [hM]; exact le_trans (le_max_right _ _) (le_max_right _ _)
  have hmx : m ≤ x := by rw [hm]; exact min_le_left _ _
  have hmy : m ≤ y := by
    rw [hm]; exact le_trans (min_le_right _ _) (min_le_left _ _)
  have hmz : m ≤ z := by
    rw [hm]; exact le_trans (min_le_right _ _) (min_le_right _ _)
  have hM1 : M ≤ 1 := by rw [hM]; exact max_le hx1 (max_le hy1 hz1)
  have hm0 : 0 ≤ m := by rw [hm]; exact le_min hx0 (le_min hy0 hz0)
  have hmM : m < M := lt_of_le_of_ne (le_trans hmx hxM) (Ne.symm hne)
  have hd0 : 0 < d := by rw [hd]; linarith
  have hdne : d ≠ 0 := ne_of_gt hd0
  have hMm : 0 < M + m := by linarith
  have h2Mm : 0 < 2 - M - m := by linarith
  have hs0' : 0 < s := by
    rw [hs]; split_ifs
    · exact div_pos hd0 h2Mm
    · exact div_pos hd0 hMm
  have hs1' : s ≤ 1 := by
    rw [hs]; split_ifs
    · rw [div_le_one h2Mm, hd]; linarith
    · rw [div_le_one hMm, hd]; linarith
  have harm1 : l ≤ 1/2 → l * (1 + s) = M := by
    intro hle
    rw [hs, if_neg (not_lt.2 (by exact hle)), hl, hd]
    field_simp
    ring
  have harm2 : 1/2 ≤ l → l + s - l * s = M := by
    intro hge
    rw [hs]
    split_ifs with hgt
    · rw [hl, hd]
      field_simp
      ring
    · have hmeq : m = 1 - M := by rw [hl] at hge hgt; push_neg at hgt; linarith
      rw [hl, hd, hmeq]
      have hMne : M ≠ 0 := by rw [hmeq] at hmM; intro e; rw [e] at hmM; linarith
      have : M + (1 - M) = 1 := by ring
      field_simp
      ring
  have main : (0 ≤ h ∧ h < 1) ∧ hue2rgb m M (h + 1/3) = x ∧
      hue2rgb m M h = y ∧ hue2rgb m M (h - 1/3) = z := by
    by_cases hMx : M = x
    · by_cases hyz : y < z
      · -- max = r with g < b: h ∈ [5/6, 1)
        have hmy' : m = y := by
          rw [hm, min_eq_left (le_of_lt hyz),
            min_eq_right (show y ≤ x by linarith)]
        have hdv : d = x - y := by rw [hd, hmy', hMx]
        have hdne' : x - y ≠ 0 := by rw [← hdv]; exact hdne
        have hhv : h = ((y - z)/d + 6)/6 := by rw [hh, if_pos hMx, if_pos hyz]
        have hr1 : -1 ≤ (y - z)/d := by
          rw [le_div_iff hd0, hdv]
          linarith
        have hr2 : (y - z)/d < 0 := div_neg_of_neg_of_pos (by linarith) hd0
        have hh56 : 5/6 ≤ h := by rw [hhv]; linarith
        have hh1 : h < 1 := by rw [hhv]; linarith
        refine ⟨⟨by linarith, hh1⟩, ?_, ?_, ?_⟩
        · unfold hue2rgb
          rw [normHue_sub_one (show (1:ℚ) < h + 1/3 by linarith),
            hue2rgbAux_eq_q (show (1:ℚ)/6 ≤ h + 1/3 - 1 by linarith)
              (show h + 1/3 - 1 < 1/2 by linarith)]
          exact hMx
        · unfold hue2rgb
          rw [normHue_eq_self (by linarith) (by linarith),
            hue2rgbAux_eq_p (by linarith)]
          exact hmy'
        · unfold hue2rgb
          rw [normHue_eq_self (show (0:ℚ) ≤ h - 1/3 by linarith)
              (show h - 1/3 ≤ 1 by linarith),
            hue2rgbAux_ramp2 (show (1:ℚ)/2 ≤ h - 1/3 by linarith)
              (show h - 1/3 < 2/3 by linarith),
            hhv, hmy', hMx, hdv]
          field_simp
          ring
      · -- max = r with g ≥ b: h ∈ [0, 1/6]
        have hzy : z ≤ y := not_lt.1 hyz
        have hmz' : m = z := by
          rw [hm, min_eq_right hzy, min_eq_right (show z ≤ x by linarith)]
        have hdv : d = x - z := by rw [hd, hmz', hMx]
        have hdne' : x - z ≠ 0 := by rw [← hdv]; exact hdne
        have hhv : h = ((y - z)/d + 0)/6 := by rw [hh, if_pos hMx, if_neg hyz]
        have hq0 : 0 ≤ (y - z)/d := div_nonneg (by linarith) hd0.le
        have hq1 : (y - z)/d ≤ 1 := by
          rw [div_le_one hd0, hdv]
          linarith
        have hh0 : 0 ≤ h := by rw [hhv]; linarith
        have hh16 : h ≤ 1/6 := by rw [hhv]; linarith
        refine ⟨⟨hh0, by linarith⟩, ?_, ?_, ?_⟩
        · unfold hue2rgb
          rw [normHue_eq_self (show (0:ℚ) ≤ h + 1/3 by linarith)
            (show h + 1/3 ≤ 1 by linarith)]
          rcases lt_or_le (h + 1/3) (1/2) with hc | hc
          · rw [hue2rgbAux_eq_q (show (1:ℚ)/6 ≤ h + 1/3 by linarith) hc]
            exact hMx
          · have hc' : h + 1/3 = 1/2 := le_antisymm (by linarith) hc
            rw [hue2rgbAux_ramp2 hc (show h + 1/3 < 2/3 by linarith), hc',
              show m + (M - m) * (2/3 - 1/2) * 6 = M from by ring]
            exact hMx
        · unfold hue2rgb
          rw [normHue_eq_self hh0 (by linarith)]
          rcases lt_or_le h (1/6) with hc | hc
          · rw [hue2rgbAux_ramp1 hc, hhv, hmz', hMx, hdv]
            field_simp
          · have hc' : h = 1/6 := le_antisymm hh16 hc
            have hyx' : y = x := by
              rw [hhv, hdv] at hc'
              field_simp at hc'
              linarith
            rw [hue2rgbAux_eq_q hc (show h < 1/2 by linarith), hMx]
            exact hyx'.symm
        · unfold hue2rgb
          rw [normHue_add_one (show h - 1/3 < 0 by linarith),
            hue2rgbAux_eq_p (show (2:ℚ)/3 ≤ h - 1/3 + 1 by linarith)]
          exact hmz'
    · by_cases hMy : M = y
      · have hxlt : x < M := lt_of_le_of_ne hxM (Ne.symm hMx)
        have hhv : h = ((z - x)/d + 2)/6 := by rw [hh, if_neg hMx, if_pos hMy]
        rcases le_total x z with hxz | hzx
        · -- max = g, b ≥ r: h ∈ [1/3, 1/2]
          have hmx' : m = x := by
            rw [hm]
            exact min_eq_left (le_min (by linarith) hxz)
          have hdv : d = y - x := by rw [hd, hmx', hMy]
          have hdne' : y - x ≠ 0 := by rw [← hdv]; exact hdne
          have hq0 : 0 ≤ (z - x)/d := div_nonneg (by linarith) hd0.le
          have hq1 : (z - x)/d ≤ 1 := by
            rw [div_le_one hd0, hdv]
            linarith
          have hh13 : 1/3 ≤ h := by rw [hhv]; linarith
          have hh12 : h ≤ 1/2 := by rw [hhv]; linarith
          refine ⟨⟨by linarith, by linarith⟩, ?_, ?_, ?_⟩
          · unfold hue2rgb
            rw [normHue_eq_self (show (0:ℚ) ≤ h + 1/3 by linarith)
                (show h + 1/3 ≤ 1 by linarith),
              hue2rgbAux_eq_p (show (2:ℚ)/3 ≤ h + 1/3 by linarith)]
            exact hmx'
          · unfold hue2rgb
            rw [normHue_eq_self (by linarith) (by linarith)]
            rcases lt_or_le h (1/2) with hc | hc
            · rw [hue2rgbAux_eq_q (by linarith) hc]
              exact hMy
            · have hc' : h = 1/2 := le_antisymm hh12 hc
              rw [hue2rgbAux_ramp2 hc (by linarith), hc',
                show m + (M - m) * (2/3 - 1/2) * 6 = M from by ring]
              exact hMy
          · unfold hue2rgb
            rw [normHue_eq_self (show (0:ℚ) ≤ h - 1/3 by linarith)
              (show h - 1/3 ≤ 1 by linarith)]
            rcases lt_or_le (h - 1/3) (1/6) with hc | hc
            · rw [hue2rgbAux_ramp1 hc, hhv, hmx', hMy, hdv]
              field_simp
              ring
            · have hc' : h = 1/2 := le_antisymm hh12 (by linarith)
              have hzM' : z = y := by
                rw [hhv, hdv] at hc'
                field_simp at hc'
                linarith
              rw [hue2rgbAux_eq_q hc (show h - 1/3 < 1/2 by linarith), hMy]
              exact hzM'.symm
        · -- max = g, b < r: h ∈ (1/6, 1/3]
          have hmz' : m = z := by
            rw [hm, min_eq_right (show z ≤ y by linarith),
              min_eq_right hzx]
          have hdv : d = y - z := by rw [hd, hmz', hMy]
          have hdne' : y - z ≠ 0 := by rw [← hdv]; exact hdne
          have hq2 : -1 < (z - x)/d := by
            rw [lt_div_iff hd0, hdv]
            linarith
          have hq3 : (z - x)/d ≤ 0 := by
            rw [div_le_iff hd0]
            linarith
          have hh16 : 1/6 < h := by rw [hhv]; linarith
          have hh13 : h ≤ 1/3 := by rw [hhv]; linarith
          refine ⟨⟨by linarith, by linarith⟩, ?_, ?_, ?_⟩
          · unfold hue2rgb
            rw [normHue_eq_self (show (0:ℚ) ≤ h + 1/3 by linarith)
              (show h + 1/3 ≤ 1 by linarith)]
            rcases lt_or_le (h + 1/3) (2/3) with hc | hc
            · rw [hue2rgbAux_ramp2 (show (1:ℚ)/2 ≤ h + 1/3 by linarith) hc,
                hhv, hmz', hMy, hdv]
              field_simp
              ring
            · have hc' : h = 1/3 := le_antisymm hh13 (by linarith)
              have hzx' : z = x := by
                rw [hhv, hdv] at hc'
                field_simp at hc'
                linarith
              rw [hue2rgbAux_eq_p (show (2:ℚ)/3 ≤ h + 1/3 by linarith), hmz']
              exact hzx'
          · unfold hue2rgb
            rw [normHue_eq_self (by linarith) (by linarith),
              hue2rgbAux_eq_q (by linarith) (by linarith)]
            exact hMy
          · unfold hue2rgb
            rcases lt_or_le (h - 1/3) 0 with hc | hc
            · rw [normHue_add_one hc,
                hue2rgbAux_eq_p (show (2:ℚ)/3 ≤ h - 1/3 + 1 by linarith)]
              exact hmz'
            · have hc' : h = 1/3 := le_antisymm hh13 (by linarith)
              rw [normHue_eq_self (by linarith) (by linarith),
                hue2rgbAux_ramp1 (show h - 1/3 < 1/6 by linarith), hc',
                show m + (M - m) * 6 * ((1:ℚ)/3 - 1/3) = m from by ring]
              exact hmz'
      · have hMz : M = z := by
          rcases max_choice x (max y z) with h1 | h1
          · exact absurd (hM.trans h1) hMx
          · rcases max_choice y z with h2 | h2
            · exact absurd ((hM.trans h1).trans h2) hMy
            · exact (hM.trans h1).trans h2
        have hxlt : x < M := lt_of_le_of_ne hxM (Ne.symm hMx)
        have hylt : y < M := lt_of_le_of_ne hyM (Ne.symm hMy)
        have hhv : h = ((x - y)/d + 4)/6 := by rw [hh, if_neg hMx, if_neg hMy]
        rcases le_total y x with hyx | hxy2
        · -- max = b, r ≥ g: h ∈ [2/3, 5/6)
          have hmy' : m = y := by
            rw [hm, min_eq_left (show y ≤ z by linarith), min_eq_right hyx]
          have hdv : d = z - y := by rw [hd, hmy', hMz]
          have hdne' : z - y ≠ 0 := by rw [← hdv]; exact hdne
          have hq0 : 0 ≤ (x - y)/d := div_nonneg (by linarith) hd0.le
          have hq1 : (x - y)/d < 1 := by
            rw [div_lt_one hd0, hdv]
            linarith
          have hh23 : 2/3 ≤ h := by rw [hhv]; linarith
          have hh56 : h < 5/6 := by rw [hhv]; linarith
          refine ⟨⟨by linarith, by linarith⟩, ?_, ?_, ?_⟩
          · unfold hue2rgb
            rcases lt_or_le 1 (h + 1/3) with hc | hc
            · rw [normHue_sub_one hc,
                hue2rgbAux_ramp1 (show h + 1/3 - 1 < 1/6 by linarith),
                hhv, hmy', hMz, hdv]
              field_simp
              ring
            · have hc' : h = 2/3 := le_antisymm (by linarith) hh23
              have hxy' : x = y := by
                rw [hhv, hdv] at hc'
                field_simp at hc'
                linarith
              rw [normHue_eq_self (by linarith) hc,
                hue2rgbAux_eq_p (show (2:ℚ)/3 ≤ h + 1/3 by linarith), hmy']
              exact hxy'.symm
          · unfold hue2rgb
            rw [normHue_eq_self (by linarith) (by linarith),
              hue2rgbAux_eq_p (by linarith)]
            exact hmy'
          · unfold hue2rgb
            rw [normHue_eq_self (show (0:ℚ) ≤ h - 1/3 by linarith)
                (show h - 1/3 ≤ 1 by linarith),
              hue2rgbAux_eq_q (show (1:ℚ)/6 ≤ h - 1/3 by linarith)
                (show h - 1/3 < 1/2 by linarith)]
            exact hMz
        · -- max = b, r < g: h ∈ (1/2, 2/3]
          have hmx' : m = x := by
            rw [hm]
            exact min_eq_left (le_min hxy2 (by linarith))
          have hdv : d = z - x := by rw [hd, hmx', hMz]
          have hdne' : z - x ≠ 0 := by rw [← hdv]; exact hdne
          have hq2 : -1 < (x - y)/d := by
            rw [lt_div_iff hd0, hdv]
            linarith
          have hq3 : (x - y)/d ≤ 0 := by
            rw [div_le_iff hd0]
            linarith
          have hh12 : 1/2 < h := by rw [hhv]; linarith
          have hh23 : h ≤ 2/3 := by rw [hhv]; linarith
          refine ⟨⟨by linarith, by linarith⟩, ?_, ?_, ?_⟩
          · unfold hue2rgb
            rw [normHue_eq_self (show (0:ℚ) ≤ h + 1/3 by linarith)
                (show h + 1/3 ≤ 1 by linarith),
              hue2rgbAux_eq_p (show (2:ℚ)/3 ≤ h + 1/3 by linarith)]
            exact hmx'
          · unfold hue2rgb
            rw [normHue_eq_self (by linarith) (by linarith)]
            rcases lt_or_le h (2/3) with hc | hc
            · rw [hue2rgbAux_ramp2 (by linarith) hc, hhv, hmx', hMz, hdv]
              field_simp
              ring
            · have hc' : h = 2/3 := le_antisymm hh23 hc
              have hxy' : x = y := by
                rw [hhv, hdv] at hc'
                field_simp at hc'
                linarith
              rw [hue2rgbAux_eq_p (by linarith)]
              rw [hmx']
              exact hxy'
          · unfold hue2rgb
            rw [normHue_eq_self (show (0:ℚ) ≤ h - 1/3 by linarith)
                (show h - 1/3 ≤ 1 by linarith),
              hue2rgbAux_eq_q (show (1:ℚ)/6 ≤ h - 1/3 by linarith)
                (show h - 1/3 < 1/2 by linarith)]
            exact hMz
  exact ⟨main.1, ⟨hs0', hs1'⟩, harm1, harm2, main.2.1, main.2.2.1,
    main.2.2.2⟩

/-! ## C4: the HSL round trip -/

/-- C4 counterexample: for the valid triple (2, 228, 230) the round trip
`hslToRgb ∘ rgbToHsl` returns (2, 223, 227), so the green channel moves by
5 — the claimed ±1 bound is false. -/
theorem hsl_roundtrip_pm1_counterexample :
    rgbToHsl 2 228 230 = (181, 98, 45) ∧
    hslToRgb 181 98 45 = (2, 223, 227) ∧
    ¬ (|(hslToRgb (rgbToHsl 2 228 230).1 (rgbToHsl 2 228 230).2.1
        (rgbToHsl 2 228 230).2.2).2.1 - 228| ≤ 1) := by
  have h1 : rgbToHsl 2 228 230 = (181, 98, 45) := by
    norm_num [rgbToHsl, jsRound, max_def, min_def, Prod.ext_iff,
      Int.floor_eq_iff]
  have h2 : hslToRgb 181 98 45 = (2, 223, 227) := by
    norm_num [hslToRgb, hue2rgb, hue2rgbAux, normHue, jsRound, Prod.ext_iff,
      Int.floor_eq_iff]
  refine ⟨h1, h2, ?_⟩
  rw [h1]
  norm_num [h2]

/-- `Math.round` fixes natural numbers. -/
theorem jsRound_ofNat (n : ℕ) : jsRound (n : ℚ) = (n : ℚ) := by
  unfold jsRound
  have h : ⌊(n : ℚ) + 1/2⌋ = (n : ℤ) := by
    rw [Int.floor_eq_iff]
    constructor <;> push_cast <;> linarith
  rw [h]
  push_cast
  rfl

set_option maxHeartbeats 1600000 in
/-- C4 (amended): `rgbToHsl` followed by `hslToRgb` reproduces every
integer RGB triple (channels in [0,255]) to within 5 per channel.  The
spec's claimed bound of ±1 is false; 5 is attained, e.g. at (2, 228, 230),
whose green channel comes back as 223. -/
theorem hsl_roundtrip_within_five (r g b : ℕ)
    (hr : r ≤ 255) (hg : g ≤ 255) (hb : b ≤ 255) :
    |(hslToRgb (rgbToHsl (r:ℚ) (g:ℚ) (b:ℚ)).1 (rgbToHsl (r:ℚ) (g:ℚ) (b:ℚ)).2.1
        (rgbToHsl (r:ℚ) (g:ℚ) (b:ℚ)).2.2).1 - (r:ℚ)| ≤ 5 ∧
    |(hslToRgb (rgbToHsl (r:ℚ) (g:ℚ) (b:ℚ)).1 (rgbToHsl (r:ℚ) (g:ℚ) (b:ℚ)).2.1
        (rgbToHsl (r:ℚ) (g:ℚ) (b:ℚ)).2.2).2.1 - (g:ℚ)| ≤ 5 ∧
    |(hslToRgb (rgbToHsl (r:ℚ) (g:ℚ) (b:ℚ)).1 (rgbToHsl (r:ℚ) (g:ℚ) (b:ℚ)).2.1
        (rgbToHsl (r:ℚ) (g:ℚ) (b:ℚ)).2.2).2.2 - (b:ℚ)| ≤ 5 := by
  have hx0 : (0:ℚ) ≤ (r:ℚ)/255 := by positivity
  have hx1 : (r:ℚ)/255 ≤ 1 := by
    rw [div_le_one (by norm_num : (0:ℚ) < 255)]; exact_mod_cast hr
  have hy0 : (0:ℚ) ≤ (g:ℚ)/255 := by positivity
  have hy1 : (g:ℚ)/255 ≤ 1 := by
    rw [div_le_one (by norm_num : (0:ℚ) < 255)]; exact_mod_cast hg
  have hz0 : (0:ℚ) ≤ (b:ℚ)/255 := by positivity
  have hz1 : (b:ℚ)/255 ≤ 1 := by
    rw [div_le_one (by norm_num : (0:ℚ) < 255)]; exact_mod_cast hb
  set x := (r:ℚ)/255 with hxe
  set y := (g:ℚ)/255 with hye
  set z := (b:ℚ)/255 with hze
  set M := max x (max y z) with hMe
  set m := min x (min y z) with hme
  have hxM : x ≤ M := by rw [hMe]; exact le_max_left _ _
  have hyM : y ≤ M := by
    rw [hMe]; exact le_trans (le_max_left _ _) (le_max_right _ _)
  have hzM : z ≤ M := by
    rw [hMe]; exact le_trans (le_max_right _ _) (le_max_right _ _)
  have hmx : m ≤ x := by rw [hme]; exact min_le_left _ _
  have hmy : m ≤ y := by
    rw [hme]; exact le_trans (min_le_right _ _) (min_le_left _ _)
  have hmz : m ≤ z := by
    rw [hme]; exact le_trans (min_le_right _ _) (min_le_right _ _)
  have hM1 : M ≤ 1 := by rw [hMe]; exact max_le hx1 (max_le hy1 hz1)
  have hm0 : 0 ≤ m := by rw [hme]; exact le_min hx0 (le_min hy0 hz0)
  have hmleM : m ≤ M := le_trans hmx hxM
  set l := (M + m)/2 with hle
  have hl0 : 0 ≤ l := by rw [hle]; linarith only [hm0, hmleM, hM1]
  have hl1 : l ≤ 1 := by rw [hle]; linarith only [hm0, hmleM, hM1]
  set L := jsRound (l * 100) with hLe
  have hLlo : l * 100 - 1/2 < L := by rw [hLe]; exact lt_jsRound _
  have hLhi : L ≤ l * 100 + 1/2 := by rw [hLe]; exact jsRound_le _
  by_cases hMm : M = m
  · -- achromatic: all three channels coincide, hue and saturation are 0
    have hxq : x = M := le_antisymm hxM (hMm.symm ▸ hmx)
    have hyq : y = M := le_antisymm hyM (hMm.symm ▸ hmy)
    have hzq : z = M := le_antisymm hzM (hMm.symm ▸ hmz)
    have hMm2 : max ((r:ℚ)/255) (max ((g:ℚ)/255) ((b:ℚ)/255)) =
        min ((r:ℚ)/255) (min ((g:ℚ)/255) ((b:ℚ)/255)) := hMm
    have heval : rgbToHsl (r:ℚ) (g:ℚ) (b:ℚ) = (0, 0, L) := by
      simp only [rgbToHsl]
      rw [if_pos hMm2, hLe, hle, hMe, hme, hxe, hye, hze]
    have e1 : (rgbToHsl (r:ℚ) (g:ℚ) (b:ℚ)).1 = 0 := by rw [heval]
    have e2 : (rgbToHsl (r:ℚ) (g:ℚ) (b:ℚ)).2.1 = 0 := by rw [heval]
    have e3 : (rgbToHsl (r:ℚ) (g:ℚ) (b:ℚ)).2.2 = L := by rw [heval]
    rw [e1, e2, e3]
    have heval2 : hslToRgb 0 0 L =
        (jsRound (L/100 * 255), jsRound (L/100 * 255), jsRound (L/100 * 255)) := by
      simp only [hslToRgb]
      rw [if_pos (by norm_num : (0:ℚ)/100 = 0)]
    rw [heval2]
    clear_value x y z M m l L
    have hkey : ∀ n : ℕ, (n:ℚ) = 255 * l → |jsRound (L/100 * 255) - (n:ℚ)| ≤ 5 := by
      intro n hn
      apply jsRound_near_int
      rw [hn, abs_lt]
      constructor <;> linarith only [hLlo, hLhi, hl0, hl1]
    refine ⟨hkey r ?_, hkey g ?_, hkey b ?_⟩
    · calc (r:ℚ) = 255 * x := by rw [hxe]; ring
        _ = 255 * l := by rw [hxq, hle, hMm]; ring
    · calc (g:ℚ) = 255 * y := by rw [hye]; ring
        _ = 255 * l := by rw [hyq, hle, hMm]; ring
    · calc (b:ℚ) = 255 * z := by rw [hze]; ring
        _ = 255 * l := by rw [hzq, hle, hMm]; ring
  · -- chromatic branch
    have hmM' : m < M := lt_of_le_of_ne hmleM (fun e => hMm e.symm)
    set d := M - m with hde
    set s := (if l > 1/2 then d / (2 - M - m) else d / (M + m)) with hse
    set hue := (if M = x then ((y - z) / d + if y < z then 6 else 0) / 6
          else if M = y then ((z - x) / d + 2) / 6
          else ((x - y) / d + 4) / 6) with hhe
    obtain ⟨⟨hh0, hh1⟩, ⟨hsp, hs1⟩, harm1, harm2, hcx, hcy, hcz⟩ :=
      exact_inverse x y z M m d l s hue hx0 hx1 hy0 hy1 hz0 hz1
        hMe hme hMm hde hle hse hhe
    set H := jsRound (hue * 360) with hHe
    set S := jsRound (s * 100) with hSe
    have hMm2 : ¬ (max ((r:ℚ)/255) (max ((g:ℚ)/255) ((b:ℚ)/255)) =
        min ((r:ℚ)/255) (min ((g:ℚ)/255) ((b:ℚ)/255))) := hMm
    have heval : rgbToHsl (r:ℚ) (g:ℚ) (b:ℚ) = (H, S, L) := by
      simp only [rgbToHsl]
      rw [if_neg hMm2, hHe, hSe, hLe, hhe, hse, hde, hle, hMe, hme, hxe, hye, hze]
    have e1 : (rgbToHsl (r:ℚ) (g:ℚ) (b:ℚ)).1 = H := by rw [heval]
    have e2 : (rgbToHsl (r:ℚ) (g:ℚ) (b:ℚ)).2.1 = S := by rw [heval]
    have e3 : (rgbToHsl (r:ℚ) (g:ℚ) (b:ℚ)).2.2 = L := by rw [heval]
    rw [e1, e2, e3]
    have hHlo : hue * 360 - 1/2 < H := by rw [hHe]; exact lt_jsRound _
    have hHhi : H ≤ hue * 360 + 1/2 := by rw [hHe]; exact jsRound_le _
    have hSlo : s * 100 - 1/2 < S := by rw [hSe]; exact lt_jsRound _
    have hShi : S ≤ s * 100 + 1/2 := by rw [hSe]; exact jsRound_le _
    have hm2l : m = 2 * l - M := by rw [hle]; ring
    clear_value x y z M m l L d s hue H S
    by_cases hS0' : S = 0
    · -- rounded saturation is 0: the rebuilt color is a gray close to l
      have hsmall : s < 1/200 := by
        rw [hS0'] at hSlo; linarith only [hSlo]
      have hd2s : d ≤ 2 * s := by
        rcases le_total l (1/2) with hcl | hcl
        · have hMq := harm1 hcl
          have hdq : d = 2 * l * s := by rw [hde, hm2l, ← hMq]; ring
          rw [hdq]; linarith only [mul_nonneg (sub_nonneg.2 hl1) hsp.le]
        · have hMq := harm2 hcl
          have hdq : d = 2 * s * (1 - l) := by rw [hde, hm2l, ← hMq]; ring
          rw [hdq]; linarith only [mul_nonneg hsp.le hl0]
      simp only [hslToRgb]
      rw [hS0']
      rw [if_pos (by norm_num : (0:ℚ)/100 = 0)]
      have hkey : ∀ (u : ℚ) (n : ℕ), m ≤ u → u ≤ M → (n:ℚ) = u * 255 →
          |jsRound (L/100 * 255) - (n:ℚ)| ≤ 5 := by
        intro u n hmu huM hn
        apply jsRound_near_int
        have h1 : |l - u| ≤ d / 2 := by
          rw [abs_le, hle, hde]
          constructor <;> linarith only [hmu, huM]
        rcases abs_le.1 h1 with ⟨h1a, h1b⟩
        rw [hn, abs_lt]
        constructor <;> linarith only [hLlo, hLhi, hd2s, hsmall, h1a, h1b]
      exact ⟨hkey x r hmx hxM (by rw [hxe]; ring),
             hkey y g hmy hyM (by rw [hye]; ring),
             hkey z b hmz hzM (by rw [hze]; ring)⟩
    · -- rounded saturation nonzero: full reconstruction through hue2rgb
      have hS100ne : S / 100 ≠ 0 := by
        intro hcon
        apply hS0'
        field_simp at hcon
        exact hcon
      simp only [hslToRgb]
      rw [if_neg hS100ne]
      set Q := (if L / 100 < 1/2 then L / 100 * (1 + S / 100)
          else L / 100 + S / 100 - L / 100 * (S / 100)) with hQe
      set P := 2 * (L / 100) - Q with hPe
      clear_value Q P
      have hjz : jsRound (0:ℚ) = 0 := by simpa using jsRound_ofNat 0
      have hj100 : jsRound (100:ℚ) = 100 := by simpa using jsRound_ofNat 100
      have hj360 : jsRound (360:ℚ) = 360 := by simpa using jsRound_ofNat 360
      have hS0q : (0:ℚ) ≤ S := by
        have hmono : jsRound (0:ℚ) ≤ jsRound (s * 100) :=
          jsRound_mono (by linarith only [hsp.le])
        rw [hjz] at hmono
        rw [hSe]
        exact hmono
      have hS100q : S ≤ 100 := by
        have hmono : jsRound (s * 100) ≤ jsRound (100:ℚ) :=
          jsRound_mono (by linarith only [hs1])
        rw [hj100] at hmono
        rw [hSe]
        exact hmono
      have hL0q : (0:ℚ) ≤ L := by
        have hmono : jsRound (0:ℚ) ≤ jsRound (l * 100) :=
          jsRound_mono (by linarith only [hl0])
        rw [hjz] at hmono
        rw [hLe]
        exact hmono
      have hL100q : L ≤ 100 := by
        have hmono : jsRound (l * 100) ≤ jsRound (100:ℚ) :=
          jsRound_mono (by linarith only [hl1])
        rw [hj100] at hmono
        rw [hLe]
        exact hmono
      have hH0q : (0:ℚ) ≤ H := by
        have hmono : jsRound (0:ℚ) ≤ jsRound (hue * 360) :=
          jsRound_mono (by linarith only [hh0])
        rw [hjz] at hmono
        rw [hHe]
        exact hmono
      have hH360q : H ≤ 360 := by
        have hmono : jsRound (hue * 360) ≤ jsRound (360:ℚ) :=
          jsRound_mono (by linarith only [hh1.le])
        rw [hj360] at hmono
        rw [hHe]
        exact hmono
      have hsr0 : (0:ℚ) ≤ S/100 := div_nonneg hS0q (by norm_num)
      have hsr1 : S/100 ≤ 1 := by
        rw [div_le_one (by norm_num : (0:ℚ) < 100)]
        exact hS100q
      have hlr0 : (0:ℚ) ≤ L/100 := div_nonneg hL0q (by norm_num)
      have hlr1 : L/100 ≤ 1 := by
        rw [div_le_one (by norm_num : (0:ℚ) < 100)]
        exact hL100q
      have hsr : |S/100 - s| ≤ 1/200 := by
        rw [abs_le]
        constructor <;> linarith only [hSlo, hShi]
      have hlr : |L/100 - l| ≤ 1/200 := by
        rw [abs_le]
        constructor <;> linarith only [hLlo, hLhi]
      have hhr : |H/360 - hue| ≤ 1/720 := by
        rw [abs_le]
        constructor <;> linarith only [hHlo, hHhi]
      have hifM : (if l ≤ 1/2 then l * (1 + s) else l + s - l * s) = M := by
        split_ifs with hcl
        · exact harm1 hcl
        · exact harm2 (le_of_lt (not_le.1 hcl))
      have hQM : |Q - M| ≤ 501/40000 := by
        have happ := q_approx hsp.le hs1 hsr0 hsr1 hl0 hl1 hlr0 hlr1 hsr hlr
        rw [hifM] at happ
        rw [hQe]
        exact happ
      have hifm : (if l ≤ 1/2 then l * (1 - s) else l * (1 + s) - s) = m := by
        split_ifs with hcl
        · rw [hm2l, ← harm1 hcl]; ring
        · rw [hm2l, ← harm2 (le_of_lt (not_le.1 hcl))]; ring
      have hPalt : P = (if L/100 < 1/2 then L/100 * (1 - S/100)
          else L/100 * (1 + S/100) - S/100) := by
        rw [hPe, hQe]
        split_ifs <;> ring
      have hPm : |P - m| ≤ 501/40000 := by
        have happ := p_approx hsp.le hs1 hsr0 hsr1 hl0 hl1 hlr0 hlr1 hsr hlr
        rw [hifm] at happ
        rw [hPalt]
        exact happ
      have chan : ∀ u : ℚ, -(1/3) ≤ u → u ≤ 1/3 → ∀ n : ℕ,
          hue2rgb m M (hue + u) = (n:ℚ)/255 →
          |jsRound (hue2rgb P Q (H/360 + u) * 255) - (n:ℚ)| ≤ 5 := by
        intro u hu1 hu2 n hid
        apply jsRound_near_int
        have ht0 : -(1/3) ≤ hue + u := by linarith only [hh0, hu1]
        have ht1 : hue + u ≤ 4/3 := by linarith only [hh1.le, hu2]
        have hH360d : H/360 ≤ 1 := by
          rw [div_le_one (by norm_num : (0:ℚ) < 360)]
          exact hH360q
        have hH0d : (0:ℚ) ≤ H/360 := div_nonneg hH0q (by norm_num)
        have ht0' : -(1/3) ≤ H/360 + u := by linarith only [hH0d, hu1]
        have ht1' : H/360 + u ≤ 4/3 := by linarith only [hH360d, hu2]
        have hdt : |(H/360 + u) - (hue + u)| ≤ 1/720 := by
          rw [show (H/360 + u) - (hue + u) = H/360 - hue from by ring]
          exact hhr
        have step1 : |hue2rgb P Q (H/360 + u) - hue2rgb m M (H/360 + u)| ≤ 501/40000 :=
          hue2rgb_pq_diff ht0' ht1' hPm hQM
        have step2 : |hue2rgb m M (H/360 + u) - hue2rgb m M (hue + u)| ≤
            (M - m) * (1/120) :=
          hue2rgb_t_diff hmleM ht0 ht1 ht0' ht1' hdt
        have htot : |hue2rgb P Q (H/360 + u) - (n:ℚ)/255| ≤ 501/40000 + 1/120 := by
          rw [← hid]
          calc |hue2rgb P Q (H/360 + u) - hue2rgb m M (hue + u)|
              ≤ |hue2rgb P Q (H/360 + u) - hue2rgb m M (H/360 + u)| +
                |hue2rgb m M (H/360 + u) - hue2rgb m M (hue + u)| := abs_sub_le _ _ _
            _ ≤ 501/40000 + (M - m) * (1/120) := add_le_add step1 step2
            _ ≤ 501/40000 + 1/120 := by linarith only [hM1, hm0]
        rcases abs_le.1 htot with ⟨ha, hb⟩
        rw [abs_lt]
        constructor <;> linarith only [ha, hb]
      refine ⟨?_, ?_, ?_⟩
      · exact chan (1/3) (by norm_num) (by norm_num) r
          (by rw [← hxe]; exact hcx)
      · have h2 := chan 0 (by norm_num) (by norm_num) g
          (by rw [add_zero, ← hye]; exact hcy)
        rw [show H/360 + 0 = H/360 from add_zero _] at h2
        exact h2
      · have h3 := chan (-(1/3)) (by norm_num) (by norm_num) b
          (by rw [show hue + -(1/3) = hue - 1/3 from by ring, ← hze]; exact hcz)
        rw [show H/360 + -(1/3) = H/360 - 1/3 from by ring] at h3
        exact h3

/-- Witness for the C4 bound at the triple (2, 228, 230). -/
theorem hsl_roundtrip_within_five_witness :
    ((2:ℕ) ≤ 255 ∧ (228:ℕ) ≤ 255 ∧ (230:ℕ) ≤ 255) ∧
    (|(hslToRgb (rgbToHsl ((2:ℕ):ℚ) ((228:ℕ):ℚ) ((230:ℕ):ℚ)).1
        (rgbToHsl ((2:ℕ):ℚ) ((228:ℕ):ℚ) ((230:ℕ):ℚ)).2.1
        (rgbToHsl ((2:ℕ):ℚ) ((228:ℕ):ℚ) ((230:ℕ):ℚ)).2.2).1 - ((2:ℕ):ℚ)| ≤ 5 ∧
     |(hslToRgb (rgbToHsl ((2:ℕ):ℚ) ((228:ℕ):ℚ) ((230:ℕ):ℚ)).1
        (rgbToHsl ((2:ℕ):ℚ) ((228:ℕ):ℚ) ((230:ℕ):ℚ)).2.1
        (rgbToHsl ((2:ℕ):ℚ) ((228:ℕ):ℚ) ((230:ℕ):ℚ)).2.2).2.1 - ((228:ℕ):ℚ)| ≤ 5 ∧
     |(hslToRgb (rgbToHsl ((2:ℕ):ℚ) ((228:ℕ):ℚ) ((230:ℕ):ℚ)).1
        (rgbToHsl ((2:ℕ):ℚ) ((228:ℕ):ℚ) ((230:ℕ):ℚ)).2.1
        (rgbToHsl ((2:ℕ):ℚ) ((228:ℕ):ℚ) ((230:ℕ):ℚ)).2.2).2.2 - ((230:ℕ):ℚ)| ≤ 5) :=
  ⟨⟨by norm_num, by norm_num, by norm_num⟩,
   hsl_roundtrip_within_five 2 228 230 (by norm_num) (by norm_num) (by norm_num)⟩
